import Mathlib

set_option linter.unusedVariables false

/-!
Shallow embedding of the CBMC output postprocessing pipeline of
`kani-driver/src/cbmc_output_parser.rs`: the data model (`Property`,
`SourceLocation`, `TraceItem`, `CheckStatus`), the postprocessing stages
(`modify_undefined_function_checks`, `filter_reach_checks`,
`filter_sanity_checks`, `annotate_properties_with_reach_results`,
`remove_check_ids_from_description`, `filter_ptr_checks`, `final_changes`,
`determine_result`, `postprocess_result`) and the result formatter
(`format_result`, `build_failure_message`).

Rust `panic!` / failed `assert!` / `.unwrap()` on `None` are modelled by
`Option`-valued functions returning `none`.  The two regexes
`KANI_CHECK_ID_.*_([0-9])*` and `\x5bKANI_CHECK_ID_([^\x5d]*)\x5d` and the
replacement regex are modelled by explicit leftmost-first greedy matchers
(Rust's `regex` crate: `.` does not match a newline, `Regex::replace`
replaces only the leftmost match, quantifiers are greedy).
-/

namespace Cbmc

/-- Check status, from the Rust enum CheckStatus. -/
inductive CheckStatus where
  | Failure
  | Success
  | Undetermined
  | Unreachable
deriving DecidableEq, Repr

/-- Source location record, from the Rust struct SourceLocation:
optional column, file, function and line, all strings. -/
structure SourceLocation where
  column : Option String
  file : Option String
  function : Option String
  line : Option String
deriving DecidableEq, Repr

/-- Trace step, from the Rust struct TraceItem. -/
structure TraceItem where
  thread : Nat
  step_type : String
  hidden : Bool
  source_location : Option SourceLocation
deriving DecidableEq, Repr

/-- Verification check, from the Rust struct Property.  The `property`
field is the dot-delimited qualified id. -/
structure Property where
  description : String
  property : String
  source_location : SourceLocation
  status : CheckStatus
  reach : Option CheckStatus
  trace : Option (List TraceItem)
deriving DecidableEq, Repr

/-- SourceLocation::is_missing: no file and no function. -/
def SourceLocation.is_missing (l : SourceLocation) : Bool :=
  l.file.isNone && l.function.isNone

/-- Substring containment on lists of characters (Rust str::contains). -/
def containsSub : List Char → List Char → Bool
  | [], pat => pat.isEmpty
  | c :: t, pat => pat.isPrefixOf (c :: t) || containsSub t pat

/-- Rust String::contains for substrings. -/
def strContains (s pat : String) : Bool :=
  containsSub s.data pat.data

/-- Constant UNSUPPORTED_CONSTRUCT_DESC. -/
def UNSUPPORTED_CONSTRUCT_DESC : String := "is not currently supported by Kani"

/-- Constant UNWINDING_ASSERT_DESC. -/
def UNWINDING_ASSERT_DESC : String := "unwinding assertion loop"

/-- Constant ASSERTION_FALSE. -/
def ASSERTION_FALSE : String := "assertion false"

/-- Constant DEFAULT_ASSERTION. -/
def DEFAULT_ASSERTION : String := "assertion"

/-- Constant REACH_CHECK_DESC. -/
def REACH_CHECK_DESC : String := "[KANI_REACHABILITY_CHECK]"

/-- The CBMC_DESCRIPTIONS lookup table: class id, then an ordered list of
(description to match, optional replacement).  Order within each entry is
the Rust vec order; the table is only used through key lookup. -/
def CBMC_DESCRIPTIONS : List (String × List (String × Option String)) :=
  [ ("error_label", []),
    ("division-by-zero", [("division by zero", none)]),
    ("enum-range-check", [("enum range check", none)]),
    ("undefined-shift",
      [("shift distance is negative", none),
       ("shift distance too large", none),
       ("shift operand is negative", none),
       ("shift of non-integer type", none)]),
    ("overflow",
      [("result of signed mod is not representable", none),
       ("arithmetic overflow on signed type conversion", none),
       ("arithmetic overflow on signed division", none),
       ("arithmetic overflow on signed unary minus", none),
       ("arithmetic overflow on signed shl", none),
       ("arithmetic overflow on unsigned unary minus", none),
       ("arithmetic overflow on signed +", some "arithmetic overflow on signed addition"),
       ("arithmetic overflow on signed -", some "arithmetic overflow on signed subtraction"),
       ("arithmetic overflow on signed *", some "arithmetic overflow on signed multiplication"),
       ("arithmetic overflow on unsigned +", some "arithmetic overflow on unsigned addition"),
       ("arithmetic overflow on unsigned -", some "arithmetic overflow on unsigned subtraction"),
       ("arithmetic overflow on unsigned *", some "arithmetic overflow on unsigned multiplication"),
       ("arithmetic overflow on floating-point typecast", none),
       ("arithmetic overflow on floating-point division", none),
       ("arithmetic overflow on floating-point addition", none),
       ("arithmetic overflow on floating-point subtraction", none),
       ("arithmetic overflow on floating-point multiplication", none),
       ("arithmetic overflow on unsigned to signed type conversion", none),
       ("arithmetic overflow on float to signed integer type conversion", none),
       ("arithmetic overflow on signed to unsigned type conversion", none),
       ("arithmetic overflow on unsigned to unsigned type conversion", none),
       ("arithmetic overflow on float to unsigned integer type conversion", none)]),
    ("NaN",
      [("NaN on +", some "NaN on addition"),
       ("NaN on -", some "NaN on subtraction"),
       ("NaN on /", some "NaN on division"),
       ("NaN on *", some "NaN on multiplication")]),
    ("pointer", [("same object violation", none)]),
    ("pointer_arithmetic",
      [("pointer relation: deallocated dynamic object", none),
       ("pointer relation: dead object", none),
       ("pointer relation: pointer NULL", none),
       ("pointer relation: pointer invalid", none),
       ("pointer relation: pointer outside dynamic object bounds", none),
       ("pointer relation: pointer outside object bounds", none),
       ("pointer relation: invalid integer address", none),
       ("pointer arithmetic: deallocated dynamic object", none),
       ("pointer arithmetic: dead object", none),
       ("pointer arithmetic: pointer NULL", none),
       ("pointer arithmetic: pointer invalid", none),
       ("pointer arithmetic: pointer outside dynamic object bounds", none),
       ("pointer arithmetic: pointer outside object bounds", none),
       ("pointer arithmetic: invalid integer address", none)]),
    ("pointer_dereference",
      [("dereferenced function pointer must be", some "dereference failure: invalid function pointer"),
       ("dereference failure: pointer NULL", none),
       ("dereference failure: pointer invalid", none),
       ("dereference failure: deallocated dynamic object", none),
       ("dereference failure: dead object", none),
       ("dereference failure: pointer outside dynamic object bounds", none),
       ("dereference failure: pointer outside object bounds", none),
       ("dereference failure: invalid integer address", none)]),
    ("pointer_primitives",
      [("pointer invalid", none),
       ("deallocated dynamic object", some "pointer to deallocated dynamic object"),
       ("dead object", some "pointer to dead object"),
       ("pointer outside dynamic object bounds", none),
       ("pointer outside object bounds", none),
       ("invalid integer address", none)]),
    ("array_bounds",
      [("lower bound", some "index out of bounds"),
       ("upper bound",
        some "index out of bounds: the length is less than or equal to the given index")]),
    ("bit_count",
      [("count trailing zeros is undefined for value zero", none),
       ("count leading zeros is undefined for value zero", none)]),
    ("memory-leak", [("dynamically allocated memory never freed", none)]) ]

/-- Association lookup with decidable equality on string keys. -/
def tableLookup {α : Type} : List (String × α) → String → Option α
  | [], _ => none
  | (k, v) :: rest, key => if k = key then some v else tableLookup rest key

/-- Dot-splitting of a character list (Rust str::rsplitn with separator
"." reads the same segments from the right). -/
def splitOnDot : List Char → List (List Char)
  | [] => [[]]
  | c :: r =>
    if c = '.' then [] :: splitOnDot r
    else
      match splitOnDot r with
      | [] => [[c]]
      | g :: gs => (c :: g) :: gs

/-- extract_property_class: rsplitn(3, ".")[1], i.e. the second-to-last
dot-delimited segment of the qualified id; none if there is no dot. -/
def extract_property_class (prop : Property) : Option String :=
  (((splitOnDot prop.property.data).reverse)[1]?).map String.mk

/-- has_check_failures: there is a check whose description contains the
message and whose status is Failure (the Rust code counts them and
compares the count with zero). -/
def has_check_failures (properties : List Property) (message : String) : Bool :=
  0 < (properties.filter
        (fun prop => strContains prop.description message
          && decide (prop.status = CheckStatus.Failure))).length

/-! ### Regex machinery

The three regexes are compiled by hand.  `findFrom` gives the leftmost
match start; `findMaxLe` gives the greedy (longest) extent of a `.*`.
-/

/-- First index at or after `i`, within `fuel` steps, satisfying `f`. -/
def findFrom (f : Nat → Bool) : Nat → Nat → Option Nat
  | _, 0 => none
  | i, fuel + 1 => if f i then some i else findFrom f (i + 1) fuel

/-- Greatest index `k ≤ bound` satisfying `f`. -/
def findMaxLe (f : Nat → Bool) : Nat → Option Nat
  | 0 => if f 0 then some 0 else none
  | bound + 1 => if f (bound + 1) then some (bound + 1) else findMaxLe f bound

/-- True when no character of the list is a newline (a regex `.` never
matches a newline). -/
def noNewline (l : List Char) : Bool :=
  l.all (fun c => c != '\n')

/-- The fifteen characters of the literal part of the bracketed check-id
patterns. -/
def LIT_BRACKET : List Char := "[KANI_CHECK_ID_".data

/-- The fourteen characters of the literal part of the unbracketed
check-id pattern. -/
def LIT_PLAIN : List Char := "KANI_CHECK_ID_".data

/-- Matcher for the tail `_([0-9])*\x5d␣` of the replacement regex: an
underscore, a greedy digit run, then the two characters bracket-space. -/
def tailMatchB : List Char → Bool
  | '_' :: r => decide ((r.dropWhile Char.isDigit).take 2 = [']', ' '])
  | _ => false

/-- Length consumed by a successful `tailMatchB`. -/
def tailMatchLen : List Char → Nat
  | '_' :: r => 1 + (r.takeWhile Char.isDigit).length + 2
  | _ => 0

/-- Matcher for the tail `_([0-9])*` of the plain check-id regex: just an
underscore (the digit star may be empty). -/
def tailPlainB : List Char → Bool
  | '_' :: _ => true
  | _ => false

/-- Length consumed by a successful `tailPlainB` with greedy digits. -/
def tailPlainLen : List Char → Nat
  | '_' :: r => 1 + (r.takeWhile Char.isDigit).length
  | _ => 0

/-- Greedy split point of `.*` before a `tailMatchB` tail inside `u`:
the greatest `k` such that `u.take k` has no newline and the tail pattern
matches at `u.drop k`. -/
def greedyKB (u : List Char) : Option Nat :=
  findMaxLe (fun k => noNewline (u.take k) && tailMatchB (u.drop k)) u.length

/-- Greedy split point of `.*` before a `tailPlainB` tail inside `u`. -/
def greedyKP (u : List Char) : Option Nat :=
  findMaxLe (fun k => noNewline (u.take k) && tailPlainB (u.drop k)) u.length

/-- Length of the match of `\x5bKANI_CHECK_ID_.*_([0-9])*\x5d␣` starting
exactly at position `i` of `s`, if any. -/
def replMatchAt (s : List Char) (i : Nat) : Option Nat :=
  if LIT_BRACKET.isPrefixOf (s.drop i) then
    match greedyKB (s.drop (i + 15)) with
    | some k => some (15 + k + tailMatchLen (s.drop (i + 15 + k)))
    | none => none
  else none

/-- Leftmost start position of the replacement regex in `s`. -/
def replFindStart (s : List Char) : Option Nat :=
  findFrom (fun i => (replMatchAt s i).isSome) 0 (s.length + 1)

/-- Rust `re.replace(s, "")` for the replacement regex
`\x5bKANI_CHECK_ID_.*_([0-9])*\x5d␣`: remove the leftmost (greedy) match,
if any. -/
def stripCheckId (s : List Char) : List Char :=
  match replFindStart s with
  | some i =>
    match replMatchAt s i with
    | some n => s.take i ++ s.drop (i + n)
    | none => s
  | none => s

/-- Length of the match of `KANI_CHECK_ID_.*_([0-9])*` starting exactly at
position `i` of `s`, if any. -/
def plainMatchAt (s : List Char) (i : Nat) : Option Nat :=
  if LIT_PLAIN.isPrefixOf (s.drop i) then
    match greedyKP (s.drop (i + 14)) with
    | some k => some (14 + k + tailPlainLen (s.drop (i + 14 + k)))
    | none => none
  else none

/-- Leftmost start position of the plain check-id regex in `s`. -/
def plainFindStart (s : List Char) : Option Nat :=
  findFrom (fun i => (plainMatchAt s i).isSome) 0 (s.length + 1)

/-- Full text of the leftmost match of `KANI_CHECK_ID_.*_([0-9])*`
(captures.get(0)), if any. -/
def extractCheckId (s : List Char) : Option (List Char) :=
  match plainFindStart s with
  | some i =>
    match plainMatchAt s i with
    | some n => some ((s.drop i).take n)
    | none => none
  | none => none

/-- Length of the match of `\x5bKANI_CHECK_ID_([^\x5d]*)\x5d` starting
exactly at position `i` of `s`, if any: the literal, then every character
up to (and including) the first closing bracket. -/
def bracketMatchAt (s : List Char) (i : Nat) : Option Nat :=
  if LIT_BRACKET.isPrefixOf (s.drop i) then
    let inner := (s.drop (i + 15)).takeWhile (fun c => c != ']')
    if inner.length < (s.drop (i + 15)).length then some (15 + inner.length + 1) else none
  else none

/-- Leftmost start position of the bracketed check-id regex in `s`. -/
def bracketFindStart (s : List Char) : Option Nat :=
  findFrom (fun i => (bracketMatchAt s i).isSome) 0 (s.length + 1)

/-- Full text of the leftmost match of `\x5bKANI_CHECK_ID_([^\x5d]*)\x5d`
(captures.get(0)), if any. -/
def bracketMatch (s : List Char) : Option (List Char) :=
  match bracketFindStart s with
  | some i =>
    match bracketMatchAt s i with
    | some n => some ((s.drop i).take n)
    | none => none
  | none => none

/-! ### Postprocessing stages -/

/-- One step of modify_undefined_function_checks.  The Rust condition
short-circuits, so the class unwrap (a potential panic, modelled by
`none`) only happens when the description contains ASSERTION_FALSE. -/
def modifyUndefinedOne (prop : Property) : Option (Property × Bool) :=
  if strContains prop.description ASSERTION_FALSE then
    match extract_property_class prop with
    | none => none
    | some cls =>
      if cls = DEFAULT_ASSERTION ∧ prop.source_location.file = none then
        some ({ prop with description := "Function with missing definition is unreachable" },
          decide (prop.status = CheckStatus.Failure))
      else some (prop, false)
  else some (prop, false)

/-- modify_undefined_function_checks: rewrite the description of every
check in the generic assertion class whose description contains
ASSERTION_FALSE and that has no source file; the returned flag records
whether any rewritten check has status Failure. -/
def modify_undefined_function_checks : List Property → Option (List Property × Bool)
  | [] => some ([], false)
  | prop :: rest => do
    let (p, f) ← modifyUndefinedOne prop
    let (rest2, fs) ← modify_undefined_function_checks rest
    pure (p :: rest2, f || fs)

/-- filter_properties: keep elements whose description does not contain
the message; return the removed ones as the second component, both in the
original order. -/
def filter_properties (properties : List Property) (message : String) :
    List Property × List Property :=
  (properties.filter (fun prop => !(strContains prop.description message)),
   properties.filter (fun prop => strContains prop.description message))

/-- filter_reach_checks: partition by REACH_CHECK_DESC containment. -/
def filter_reach_checks (properties : List Property) : List Property × List Property :=
  filter_properties properties REACH_CHECK_DESC

/-- filter_sanity_checks: drop checks of class sanity_check with status
Success.  The class unwrap is a potential panic, modelled by `none`. -/
def filter_sanity_checks : List Property → Option (List Property)
  | [] => some []
  | prop :: rest => do
    let cls ← extract_property_class prop
    let rest2 ← filter_sanity_checks rest
    if cls = "sanity_check" ∧ prop.status = CheckStatus.Success then pure rest2
    else pure (prop :: rest2)

/-- Map from bracketed check-id keys to statuses, modelling the Rust
HashMap used by annotate_properties_with_reach_results. -/
def mapLookup : List (List Char × CheckStatus) → List Char → Option CheckStatus
  | [], _ => none
  | (k, v) :: rest, key => if k = key then some v else mapLookup rest key

/-- Build the reach map: for each reach check, extract the check-id token
from its description (an unwrap, `none` on no match), wrap it in square
brackets, and insert it; a duplicate key fails the Rust assert, modelled
by `none`. -/
def buildReachMapAux (acc : List (List Char × CheckStatus)) :
    List Property → Option (List (List Char × CheckStatus))
  | [] => some acc
  | rc :: rest => do
    let tok ← extractCheckId rc.description.data
    let key := '[' :: (tok ++ [']'])
    if (mapLookup acc key).isSome then none
    else buildReachMapAux ((key, rc.status) :: acc) rest

/-- Annotate one property: if its description matches the bracketed
check-id regex and the full match is a key of the reach map, set `reach`
to the mapped status; otherwise leave the property unchanged. -/
def annotateOne (m : List (List Char × CheckStatus)) (prop : Property) : Property :=
  match bracketMatch prop.description.data with
  | some tok =>
    match mapLookup m tok with
    | some st => { prop with reach := some st }
    | none => prop
  | none => prop

/-- annotate_properties_with_reach_results: build the reach map from the
reach checks, then annotate every property independently. -/
def annotate_properties_with_reach_results (properties reach_checks : List Property) :
    Option (List Property) := do
  let m ← buildReachMapAux [] reach_checks
  pure (properties.map (annotateOne m))

/-- remove_check_ids_from_description: strip the leftmost match of the
replacement regex from every description. -/
def remove_check_ids_from_description (properties : List Property) : List Property :=
  properties.map
    (fun prop => { prop with description := String.mk (stripCheckId prop.description.data) })

/-- filter_ptr_checks: drop checks whose class contains
pointer_arithmetic or pointer_primitives (substring containment).  The
class unwrap is a potential panic, modelled by `none`. -/
def filter_ptr_checks : List Property → Option (List Property)
  | [] => some []
  | prop :: rest => do
    let cls ← extract_property_class prop
    let rest2 ← filter_ptr_checks rest
    if strContains cls "pointer_arithmetic" || strContains cls "pointer_primitives" then
      pure rest2
    else pure (prop :: rest2)

/-- Stage 7 of the pipeline as written inline in postprocess_result:
apply filter_ptr_checks unless the extra-pointer-checks flag is set. -/
def stage7 (extra_ptr_checks : Bool) (properties : List Property) : Option (List Property) :=
  if !extra_ptr_checks then filter_ptr_checks properties else pure properties

/-- Walk the alternatives of a CBMC_DESCRIPTIONS entry in order; on the
first alternative contained in the original description return its
replacement (or the matched text when there is none). -/
def applyAlts : List (String × Option String) → String → String
  | [], original => original
  | (descToMatch, optReplace) :: rest, original =>
    if strContains original descToMatch then
      match optReplace with
      | some descToReplace => descToReplace
      | none => descToMatch
    else applyAlts rest original

/-- get_readable_description: replace the description with the first
matching human-readable alias of its class, if the class is in the table.
The class unwrap is a potential panic, modelled by `none`. -/
def get_readable_description (prop : Property) : Option String := do
  let class_id ← extract_property_class prop
  match tableLookup CBMC_DESCRIPTIONS class_id with
  | some alts => pure (applyAlts alts prop.description)
  | none => pure prop.description

/-- One step of final_changes: rewrite the description, then with any
fundamental failure force Success to Undetermined; otherwise promote a
check whose reach is Success to Unreachable, where a status other than
Success fails the Rust assert, modelled by `none`. -/
def finalChangesOne (has_fundamental_failures : Bool) (prop : Property) : Option Property := do
  let desc ← get_readable_description prop
  let prop := { prop with description := desc }
  if has_fundamental_failures then
    if prop.status = CheckStatus.Success then
      pure { prop with status := CheckStatus.Undetermined }
    else pure prop
  else
    if prop.reach = some CheckStatus.Success then
      if prop.status = CheckStatus.Success then
        pure { prop with status := CheckStatus.Unreachable }
      else none
    else pure prop

/-- Sequential Option-valued map, mirroring an in-order Rust loop that
can panic. -/
def mapOpt {α β : Type} (f : α → Option β) : List α → Option (List β)
  | [] => some []
  | a :: l => do
    let b ← f a
    let l2 ← mapOpt f l
    pure (b :: l2)

/-- final_changes over the whole list, in order. -/
def final_changes (properties : List Property) (has_fundamental_failures : Bool) :
    Option (List Property) :=
  mapOpt (finalChangesOne has_fundamental_failures) properties

/-- determine_result: true when the number of Failure checks is zero. -/
def determine_result (properties : List Property) : Bool :=
  (properties.filter (fun prop => decide (prop.status = CheckStatus.Failure))).length = 0

/-- postprocess_result: the fixed ordered pipeline over one result batch,
returning the finalized properties and the overall verdict; `none` models
any panic or failed assert along the way. -/
def postprocess_result (properties : List Property) (extra_ptr_checks : Bool) :
    Option (List Property × Bool) := do
  let has_reachable_unsupported_constructs :=
    has_check_failures properties UNSUPPORTED_CONSTRUCT_DESC
  let has_failed_unwinding_asserts := has_check_failures properties UNWINDING_ASSERT_DESC
  let (properties_with_undefined, has_reachable_undefined_functions) ←
    modify_undefined_function_checks properties
  let (properties_without_reachs, reach_checks) :=
    filter_reach_checks properties_with_undefined
  let properties_without_sanity_checks ← filter_sanity_checks properties_without_reachs
  let properties_annotated ←
    annotate_properties_with_reach_results properties_without_sanity_checks reach_checks
  let properties_without_ids := remove_check_ids_from_description properties_annotated
  let new_properties ← stage7 extra_ptr_checks properties_without_ids
  let has_fundamental_failures := has_reachable_unsupported_constructs
    || has_failed_unwinding_asserts || has_reachable_undefined_functions
  let final_properties ← final_changes new_properties has_fundamental_failures
  let overall_result := determine_result final_properties
  pure (final_properties, overall_result)

/-! ### Result formatter -/

/-- Display for CheckStatus. -/
def statusStr : CheckStatus → String
  | CheckStatus.Success => "SUCCESS"
  | CheckStatus.Failure => "FAILURE"
  | CheckStatus.Unreachable => "UNREACHABLE"
  | CheckStatus.Undetermined => "UNDETERMINED"

/-- build_failure_message: the backup message is the description alone;
with a trace, index len-1 of an empty trace is an out-of-bounds panic
(modelled by `none`); a complete last-step location (file, function and
line all present) adds the location line, anything else falls back. -/
def build_failure_message (description : String) (trace : Option (List TraceItem)) :
    Option String :=
  let backup_failure_message := "Failed Checks: " ++ description ++ "\n"
  match trace with
  | none => some backup_failure_message
  | some failure_trace =>
    match failure_trace.getLast? with
    | none => none
    | some lastStep =>
      match lastStep.source_location with
      | none => some backup_failure_message
      | some failure_source =>
        match failure_source.file, failure_source.function, failure_source.line with
        | some failure_file, some failure_function, some failure_line =>
          some ("Failed Checks: " ++ description ++ "\n File: \"" ++ failure_file
            ++ "\", line " ++ failure_line ++ ", in " ++ failure_function ++ "\n")
        | _, _, _ => some backup_failure_message

/-- Count of Failure checks accumulated by the format_result loop. -/
def numberTestsFailed (properties : List Property) : Nat :=
  (properties.filter (fun prop => decide (prop.status = CheckStatus.Failure))).length

/-- Count of Undetermined checks accumulated by the format_result loop. -/
def numberTestsUndetermined (properties : List Property) : Nat :=
  (properties.filter (fun prop => decide (prop.status = CheckStatus.Undetermined))).length

/-- Count of Unreachable checks accumulated by the format_result loop. -/
def numberTestsUnreachable (properties : List Property) : Nat :=
  (properties.filter (fun prop => decide (prop.status = CheckStatus.Unreachable))).length

/-- The verification_result string chosen by format_result (note the
trailing space after SUCCESSFUL in the source). -/
def verification_result (number_tests_failed : Nat) : String :=
  if number_tests_failed = 0 then "SUCCESSFUL " else "FAILED"

/-- One per-check block of the regular report.  `renderLoc` abstracts the
Display of SourceLocation, which relativizes the file against the ambient
current directory. -/
def checkBlock (renderLoc : SourceLocation → String) (index : Nat) (prop : Property) :
    String :=
  "Check " ++ toString index ++ ": " ++ prop.property ++ "\n"
    ++ "\t - Status: " ++ statusStr prop.status ++ "\n"
    ++ "\t - Description: \"" ++ prop.description ++ "\"\n"
    ++ (if !prop.source_location.is_missing then
          "\t - Location: " ++ renderLoc prop.source_location ++ "\n"
        else "")
    ++ "\n"

/-- Left-to-right concatenation of a list of strings, mirroring a Rust
loop of push_str calls. -/
def concatAll : List String → String
  | [] => ""
  | s :: rest => s ++ concatAll rest

/-- All per-check blocks, indexed from 1 in order. -/
def checkBlocks (renderLoc : SourceLocation → String) (properties : List Property) :
    String :=
  concatAll ((List.range properties.length).zip properties |>.map
    (fun iv => checkBlock renderLoc (iv.1 + 1) iv.2))

/-- Separator join for the other-status list (Rust Vec::join). -/
def joinSep (sep : String) : List String → String
  | [] => ""
  | [s] => s
  | s :: rest => s ++ sep ++ joinSep sep rest

/-- The parenthesized other-status suffix of the summary line. -/
def otherStatusStr (undetermined unreachable : Nat) : String :=
  let other_status :=
    (if undetermined > 0 then [toString undetermined ++ " undetermined"] else [])
      ++ (if unreachable > 0 then [toString unreachable ++ " unreachable"] else [])
  if other_status.length > 0 then " (" ++ joinSep "," other_status ++ ")"
  else ""

/-- The advisory warning appended when an unsupported construct was found
to be reachable. -/
def unsupportedWarning : String :=
  "** WARNING: A Rust construct that is not currently supported by Kani was found to be reachable. Check the results for more details."

/-- The advisory tip appended when an unwinding assertion failed. -/
def unwindingTip : String :=
  "[Kani] info: Verification output shows one or more unwinding failures.\n[Kani] tip: Consider increasing the unwinding value or disabling `--unwinding-assertions`.\n"

/-- format_result: the full report string, assembled in the same order as
the Rust push_str sequence; `none` models the panic of
build_failure_message on a present-but-empty trace. -/
def format_result (renderLoc : SourceLocation → String) (properties : List Property)
    (show_checks : Bool) : Option String := do
  let number_tests_failed := numberTestsFailed properties
  let number_tests_undetermined := numberTestsUndetermined properties
  let number_tests_unreachable := numberTestsUnreachable properties
  let failed_tests := properties.filter (fun prop => decide (prop.status = CheckStatus.Failure))
  let failureMessages ← mapOpt
    (fun prop => build_failure_message prop.description prop.trace) failed_tests
  pure ((if show_checks then "\nRESULTS:\n" ++ checkBlocks renderLoc properties else "")
    ++ (if show_checks then "\nSUMMARY:" else "\nVERIFICATION RESULT:")
    ++ ("\n ** " ++ toString number_tests_failed ++ " of "
        ++ toString properties.length ++ " failed")
    ++ otherStatusStr number_tests_undetermined number_tests_unreachable
    ++ "\n"
    ++ concatAll failureMessages
    ++ ("\nVERIFICATION:- " ++ verification_result number_tests_failed ++ "\n")
    ++ (if has_check_failures properties UNSUPPORTED_CONSTRUCT_DESC then unsupportedWarning
        else "")
    ++ (if has_check_failures properties UNWINDING_ASSERT_DESC then unwindingTip else ""))

/-! ### Specification lemmas for the search primitives -/

theorem findFrom_eq_some {f : Nat → Bool} :
    ∀ {fuel i j : Nat}, findFrom f i fuel = some j →
      f j = true ∧ i ≤ j ∧ ∀ q, i ≤ q → q < j → f q = false := by
  intro fuel
  induction fuel with
  | zero => intro i j h; simp [findFrom] at h
  | succ n ih =>
    intro i j h
    unfold findFrom at h
    by_cases hf : f i
    · simp [hf] at h
      subst h
      exact ⟨hf, Nat.le_refl _, fun q hq1 hq2 => absurd (Nat.lt_of_le_of_lt hq1 hq2) (Nat.lt_irrefl _)⟩
    · simp [hf] at h
      obtain ⟨hj, hij, hmin⟩ := ih h
      refine ⟨hj, Nat.le_trans (Nat.le_succ _) hij, fun q hq1 hq2 => ?_⟩
      rcases Nat.eq_or_lt_of_le hq1 with rfl | hlt
      · simpa using hf
      · exact hmin q hlt hq2

theorem findFrom_eq_none_of {f : Nat → Bool} :
    ∀ {fuel i : Nat}, (∀ q, i ≤ q → q < i + fuel → f q = false) →
      findFrom f i fuel = none := by
  intro fuel
  induction fuel with
  | zero => intro i _; rfl
  | succ n ih =>
    intro i h
    unfold findFrom
    have hi : f i = false := h i (Nat.le_refl _) (by omega)
    simp [hi]
    exact ih (fun q hq1 hq2 => h q (by omega) (by omega))

theorem findMaxLe_eq_some {f : Nat → Bool} :
    ∀ {bound k : Nat}, findMaxLe f bound = some k →
      f k = true ∧ k ≤ bound ∧ ∀ q, k < q → q ≤ bound → f q = false := by
  intro bound
  induction bound with
  | zero =>
    intro k h
    unfold findMaxLe at h
    by_cases hf : f 0
    · simp [hf] at h; subst h
      exact ⟨hf, Nat.le_refl _, fun q hq1 hq2 => by omega⟩
    · simp [hf] at h
  | succ n ih =>
    intro k h
    unfold findMaxLe at h
    by_cases hf : f (n + 1)
    · simp [hf] at h; subst h
      exact ⟨hf, Nat.le_refl _, fun q hq1 hq2 => by omega⟩
    · simp [hf] at h
      obtain ⟨hk, hkb, hmax⟩ := ih h
      refine ⟨hk, Nat.le_trans hkb (Nat.le_succ _), fun q hq1 hq2 => ?_⟩
      rcases Nat.eq_or_lt_of_le hq2 with rfl | hlt
      · simpa using hf
      · exact hmax q hq1 (by omega)

theorem findMaxLe_eq_none {f : Nat → Bool} :
    ∀ {bound : Nat}, findMaxLe f bound = none → ∀ q, q ≤ bound → f q = false := by
  intro bound
  induction bound with
  | zero =>
    intro h q hq
    unfold findMaxLe at h
    by_cases hf : f 0
    · simp [hf] at h
    · have : q = 0 := Nat.le_zero.mp hq
      subst this; exact Bool.eq_false_iff.mpr (by simpa using hf)
  | succ n ih =>
    intro h q hq
    unfold findMaxLe at h
    by_cases hf : f (n + 1)
    · simp [hf] at h
    · simp [hf] at h
      rcases Nat.eq_or_lt_of_le hq with rfl | hlt
      · exact Bool.eq_false_iff.mpr (by simpa using hf)
      · exact ih h q (by omega)

theorem findMaxLe_eq_some_of {f : Nat → Bool} :
    ∀ {bound k : Nat}, f k = true → k ≤ bound →
      (∀ q, k < q → q ≤ bound → f q = false) → findMaxLe f bound = some k := by
  intro bound
  induction bound with
  | zero =>
    intro k hk hkb _
    have : k = 0 := Nat.le_zero.mp hkb
    subst this
    unfold findMaxLe; simp [hk]
  | succ n ih =>
    intro k hk hkb hmax
    unfold findMaxLe
    rcases Nat.eq_or_lt_of_le hkb with rfl | hlt
    · simp [hk]
    · have hf : f (n + 1) = false := hmax (n + 1) hlt (Nat.le_refl _)
      simp [hf]
      exact ih hk (by omega) (fun q hq1 hq2 => hmax q hq1 (by omega))

theorem findMaxLe_eq_none_of {f : Nat → Bool} :
    ∀ {bound : Nat}, (∀ q, q ≤ bound → f q = false) → findMaxLe f bound = none := by
  intro bound
  induction bound with
  | zero =>
    intro h
    unfold findMaxLe; simp [h 0 (Nat.le_refl _)]
  | succ n ih =>
    intro h
    unfold findMaxLe
    simp [h (n + 1) (Nat.le_refl _)]
    exact ih (fun q hq => h q (by omega))

/-! ### Lemmas about mapOpt -/

theorem mapOpt_forall₂ {α β : Type} {f : α → Option β} {R : α → β → Prop}
    (hf : ∀ a b, f a = some b → R a b) :
    ∀ {l : List α} {l' : List β}, mapOpt f l = some l' → List.Forall₂ R l l' := by
  intro l
  induction l with
  | nil => intro l' h; simp [mapOpt] at h; subst h; exact List.Forall₂.nil
  | cons a t ih =>
    intro l' h
    simp only [mapOpt, Option.bind_eq_bind, Option.bind_eq_some] at h
    obtain ⟨b, hb, t', ht', h⟩ := h
    simp only [Option.pure_def, Option.some_inj] at h
    subst h
    exact List.Forall₂.cons (hf a b hb) (ih ht')

theorem mapOpt_eq_none_of_mem {α β : Type} {f : α → Option β} {a : α} :
    ∀ {l : List α}, a ∈ l → f a = none → mapOpt f l = none := by
  intro l
  induction l with
  | nil => intro h; simp at h
  | cons x t ih =>
    intro hmem hfa
    rcases List.mem_cons.mp hmem with rfl | hmem'
    · simp [mapOpt, hfa]
    · simp only [mapOpt, Option.bind_eq_bind]
      cases hx : f x with
      | none => rfl
      | some b => simp [ih hmem' hfa]

/-! ### Derivation relation: the output list is obtained from the input
list by dropping some entries and transforming the kept ones. -/

inductive Derives (R : Property → Property → Prop) :
    List Property → List Property → Prop
  | nil : Derives R [] []
  | skip {p : Property} {l l' : List Property} :
      Derives R l l' → Derives R (p :: l) l'
  | keep {p q : Property} {l l' : List Property} :
      R p q → Derives R l l' → Derives R (p :: l) (q :: l')

theorem Derives.of_forall₂ {R : Property → Property → Prop} :
    ∀ {l l' : List Property}, List.Forall₂ R l l' → Derives R l l' := by
  intro l l' h
  induction h with
  | nil => exact Derives.nil
  | cons hr _ ih => exact Derives.keep hr ih

theorem Derives.of_sublist {l l' : List Property} (h : List.Sublist l' l) :
    Derives (fun p q => p = q) l l' := by
  induction h with
  | slnil => exact Derives.nil
  | cons p _ ih => exact Derives.skip ih
  | cons₂ p _ ih => exact Derives.keep rfl ih

theorem Derives.mono {R R' : Property → Property → Prop}
    (hr : ∀ p q, R p q → R' p q) :
    ∀ {l l' : List Property}, Derives R l l' → Derives R' l l' := by
  intro l l' h
  induction h with
  | nil => exact Derives.nil
  | skip _ ih => exact Derives.skip ih
  | keep hpq _ ih => exact Derives.keep (hr _ _ hpq) ih

theorem Derives.comp {R S : Property → Property → Prop} :
    ∀ {l m : List Property}, Derives R l m → ∀ {n : List Property}, Derives S m n →
      Derives (fun p r => ∃ q, R p q ∧ S q r) l n := by
  intro l m h
  induction h with
  | nil =>
    intro n h2
    cases h2
    exact Derives.nil
  | skip _ ih =>
    intro n h2
    exact Derives.skip (ih h2)
  | keep hpq _ ih =>
    intro n h2
    cases h2 with
    | skip h3 => exact Derives.skip (ih h3)
    | keep hqr h3 => exact Derives.keep ⟨_, hpq, hqr⟩ (ih h3)

/-- Composition specialized to status-preserving steps on the left. -/
theorem Derives.comp_statusEq {l m n : List Property}
    (h1 : Derives (fun p q => q.status = p.status) l m)
    (h2 : Derives (fun p q => q.status = p.status) m n) :
    Derives (fun p q => q.status = p.status) l n := by
  refine (h1.comp h2).mono ?_
  rintro p q ⟨r, hr1, hr2⟩
  rw [hr2, hr1]

/-! ### String facts -/

theorem strData_append (a b : String) : (a ++ b).data = a.data ++ b.data := rfl

theorem strData_mk (l : List Char) : (String.mk l).data = l := rfl

theorem isPrefixOf_append_of_eq {l t : List Char} : l.isPrefixOf (l ++ t) = true := by
  induction l with
  | nil => simp [List.isPrefixOf]
  | cons c r ih => simp [List.isPrefixOf, ih]

theorem containsSub_nil_pat (l : List Char) : containsSub l [] = true := by
  cases l <;> simp [containsSub, List.isPrefixOf, List.isEmpty]

theorem containsSub_of_append {m : List Char} :
    ∀ {x y : List Char}, containsSub (x ++ m ++ y) m = true := by
  intro x
  induction x with
  | nil =>
    intro y
    cases m with
    | nil => exact containsSub_nil_pat _
    | cons c r =>
      unfold containsSub
      simp only [List.nil_append, List.cons_append, Bool.or_eq_true]
      refine Or.inl ?_
      have := @isPrefixOf_append_of_eq (c :: r) y
      simpa using this
  | cons c r ih =>
    intro y
    unfold containsSub
    simp only [List.cons_append, Bool.or_eq_true]
    exact Or.inr ih

theorem strContains_of_append {a m b : String} :
    strContains (a ++ m ++ b) m = true := by
  unfold strContains
  rw [strData_append, strData_append]
  exact containsSub_of_append

theorem mapOpt_mem {α β : Type} {f : α → Option β} {a : α} :
    ∀ {l : List α} {l' : List β}, mapOpt f l = some l' → a ∈ l →
      ∃ b, b ∈ l' ∧ f a = some b := by
  intro l
  induction l with
  | nil => intro l' _ h; simp at h
  | cons x t ih =>
    intro l' h hmem
    simp only [mapOpt, Option.bind_eq_bind, Option.bind_eq_some] at h
    obtain ⟨b, hb, t', ht', h⟩ := h
    simp only [Option.pure_def, Option.some_inj] at h
    subst h
    rcases List.mem_cons.mp hmem with rfl | hmem'
    · exact ⟨b, List.mem_cons_self _ _, hb⟩
    · obtain ⟨b', hb', hfb'⟩ := ih ht' hmem'
      exact ⟨b', List.mem_cons_of_mem _ hb', hfb'⟩

/-! ### Facts about the verdict -/

theorem determine_result_eq_true_iff (properties : List Property) :
    determine_result properties = true ↔
      ∀ p ∈ properties, p.status ≠ CheckStatus.Failure := by
  unfold determine_result
  simp [List.length_eq_zero, List.filter_eq_nil]

theorem numberTestsFailed_eq_zero_iff (properties : List Property) :
    numberTestsFailed properties = 0 ↔
      ∀ p ∈ properties, p.status ≠ CheckStatus.Failure := by
  unfold numberTestsFailed
  simp [List.length_eq_zero, List.filter_eq_nil]

/-! ### Per-stage shape lemmas -/

theorem modifyUndefinedOne_status {p q : Property} {f : Bool}
    (h : modifyUndefinedOne p = some (q, f)) : q.status = p.status := by
  unfold modifyUndefinedOne at h
  split at h
  · split at h
    · exact absurd h (by simp)
    · split at h
      · simp only [Option.some_inj, Prod.mk.injEq] at h
        obtain ⟨h1, _⟩ := h
        subst h1
        rfl
      · simp only [Option.some_inj, Prod.mk.injEq] at h
        obtain ⟨h1, _⟩ := h
        subst h1
        rfl
  · simp only [Option.some_inj, Prod.mk.injEq] at h
    obtain ⟨h1, _⟩ := h
    subst h1
    rfl

theorem modify_status_forall₂ :
    ∀ {l out : List Property} {flag : Bool},
      modify_undefined_function_checks l = some (out, flag) →
      List.Forall₂ (fun p q => q.status = p.status) l out := by
  intro l
  induction l with
  | nil =>
    intro out flag h
    simp only [modify_undefined_function_checks, Option.some_inj, Prod.mk.injEq] at h
    obtain ⟨h1, _⟩ := h
    subst h1
    exact List.Forall₂.nil
  | cons p t ih =>
    intro out flag h
    simp only [modify_undefined_function_checks, Option.bind_eq_bind,
      Option.bind_eq_some] at h
    obtain ⟨⟨q, f⟩, hq, ⟨rest2, fs⟩, hrest, h⟩ := h
    simp only [Option.pure_def, Option.some_inj, Prod.mk.injEq] at h
    obtain ⟨h1, _⟩ := h
    subst h1
    exact List.Forall₂.cons (modifyUndefinedOne_status hq) (ih hrest)

theorem filter_sanity_sublist :
    ∀ {l out : List Property}, filter_sanity_checks l = some out →
      List.Sublist out l := by
  intro l
  induction l with
  | nil =>
    intro out h
    simp only [filter_sanity_checks, Option.some_inj] at h
    subst h
    exact List.Sublist.refl _
  | cons p t ih =>
    intro out h
    simp only [filter_sanity_checks, Option.bind_eq_bind, Option.bind_eq_some] at h
    obtain ⟨cls, hcls, rest2, hrest, h⟩ := h
    split at h
    · simp only [Option.pure_def, Option.some_inj] at h
      subst h
      exact List.Sublist.cons _ (ih hrest)
    · simp only [Option.pure_def, Option.some_inj] at h
      subst h
      exact List.Sublist.cons₂ _ (ih hrest)

theorem filter_ptr_sublist :
    ∀ {l out : List Property}, filter_ptr_checks l = some out →
      List.Sublist out l := by
  intro l
  induction l with
  | nil =>
    intro out h
    simp only [filter_ptr_checks, Option.some_inj] at h
    subst h
    exact List.Sublist.refl _
  | cons p t ih =>
    intro out h
    simp only [filter_ptr_checks, Option.bind_eq_bind, Option.bind_eq_some] at h
    obtain ⟨cls, hcls, rest2, hrest, h⟩ := h
    split at h
    · simp only [Option.pure_def, Option.some_inj] at h
      subst h
      exact List.Sublist.cons _ (ih hrest)
    · simp only [Option.pure_def, Option.some_inj] at h
      subst h
      exact List.Sublist.cons₂ _ (ih hrest)

theorem stage7_sublist {flag : Bool} {l out : List Property}
    (h : stage7 flag l = some out) : List.Sublist out l := by
  unfold stage7 at h
  split at h
  · exact filter_ptr_sublist h
  · simp only [Option.pure_def, Option.some_inj] at h
    subst h
    exact List.Sublist.refl _

theorem annotateOne_status (m : List (List Char × CheckStatus)) (p : Property) :
    (annotateOne m p).status = p.status := by
  unfold annotateOne
  split
  · split
    · rfl
    · rfl
  · rfl

theorem annotateOne_reach_unset {m : List (List Char × CheckStatus)} {p : Property}
    (h : bracketMatch p.description.data = none) : annotateOne m p = p := by
  unfold annotateOne
  rw [h]

theorem annotate_eq_map {properties reach_checks out : List Property}
    (h : annotate_properties_with_reach_results properties reach_checks = some out) :
    ∃ m, buildReachMapAux [] reach_checks = some m
      ∧ out = properties.map (annotateOne m) := by
  unfold annotate_properties_with_reach_results at h
  simp only [Option.bind_eq_bind, Option.bind_eq_some, Option.pure_def,
    Option.some_inj] at h
  obtain ⟨m, hm, h⟩ := h
  exact ⟨m, hm, h.symm⟩

theorem map_status_forall₂ {f : Property → Property}
    (hf : ∀ p, (f p).status = p.status) (l : List Property) :
    List.Forall₂ (fun p q => q.status = p.status) l (l.map f) := by
  induction l with
  | nil => exact List.Forall₂.nil
  | cons p t ih => exact List.Forall₂.cons (hf p) ih

theorem stripCheckId_status (p : Property) :
    ({ p with description := String.mk (stripCheckId p.description.data) } : Property).status
      = p.status := rfl

theorem finalChangesOne_status {flag : Bool} {p q : Property}
    (h : finalChangesOne flag p = some q) :
    q.status = p.status
      ∨ (p.status = CheckStatus.Success
          ∧ (q.status = CheckStatus.Undetermined ∨ q.status = CheckStatus.Unreachable)) := by
  unfold finalChangesOne at h
  simp only [Option.bind_eq_bind, Option.bind_eq_some] at h
  obtain ⟨desc, hdesc, h⟩ := h
  split at h
  · split at h
    · simp only [Option.pure_def, Option.some_inj] at h
      subst h
      right
      refine ⟨by assumption, Or.inl rfl⟩
    · simp only [Option.pure_def, Option.some_inj] at h
      subst h
      left
      rfl
  · split at h
    · split at h
      · simp only [Option.pure_def, Option.some_inj] at h
        subst h
        right
        refine ⟨by assumption, Or.inr rfl⟩
      · exact absurd h (by simp)
    · simp only [Option.pure_def, Option.some_inj] at h
      subst h
      left
      rfl

/-! ### Inversion of the postprocessing pipeline -/

theorem postprocess_inv {props : List Property} {flag : Bool}
    {final : List Property} {verdict : Bool}
    (h : postprocess_result props flag = some (final, verdict)) :
    ∃ pu f1 psan pann new,
      modify_undefined_function_checks props = some (pu, f1)
      ∧ filter_sanity_checks (filter_reach_checks pu).1 = some psan
      ∧ annotate_properties_with_reach_results psan (filter_reach_checks pu).2 = some pann
      ∧ stage7 flag (remove_check_ids_from_description pann) = some new
      ∧ final_changes new
          (has_check_failures props UNSUPPORTED_CONSTRUCT_DESC
            || has_check_failures props UNWINDING_ASSERT_DESC || f1) = some final
      ∧ verdict = determine_result final := by
  unfold postprocess_result at h
  simp only [Option.bind_eq_bind, Option.bind_eq_some] at h
  obtain ⟨⟨pu, f1⟩, h1, h⟩ := h
  simp only at h
  rcases hfr : filter_reach_checks pu with ⟨pwr, rcs⟩
  rw [hfr] at h
  simp only at h
  obtain ⟨psan, h2, h⟩ := h
  obtain ⟨pann, h3, h⟩ := h
  obtain ⟨new, h4, h⟩ := h
  obtain ⟨fin, h5, h⟩ := h
  simp only [Option.pure_def, Option.some_inj, Prod.mk.injEq] at h
  obtain ⟨hfin, hv⟩ := h
  subst hfin
  refine ⟨pu, f1, psan, pann, new, h1, ?_, ?_, h4, h5, hv.symm⟩
  · rw [hfr]
    exact h2
  · rw [hfr]
    exact h3

/-! ### Additional per-element facts about final_changes -/

theorem finalChangesOne_true_spec {p q : Property}
    (h : finalChangesOne true p = some q) :
    q.status = if p.status = CheckStatus.Success then CheckStatus.Undetermined
      else p.status := by
  unfold finalChangesOne at h
  simp only [Option.bind_eq_bind, Option.bind_eq_some] at h
  obtain ⟨desc, hdesc, h⟩ := h
  simp only [if_pos trivial] at h
  split at h
  · simp only [Option.pure_def, Option.some_inj] at h
    subst h
    rename_i hs
    rw [if_pos hs]
  · simp only [Option.pure_def, Option.some_inj] at h
    subst h
    rename_i hs
    rw [if_neg hs]

theorem finalChangesOne_false_spec {p q : Property}
    (h : finalChangesOne false p = some q) :
    q.status = if p.reach = some CheckStatus.Success then CheckStatus.Unreachable
      else p.status := by
  unfold finalChangesOne at h
  simp only [Option.bind_eq_bind, Option.bind_eq_some] at h
  obtain ⟨desc, hdesc, h⟩ := h
  simp only [Bool.false_eq_true, if_neg (fun hx : False => hx)] at h
  split at h
  · rename_i hr
    split at h
    · simp only [Option.pure_def, Option.some_inj] at h
      subst h
      rw [if_pos hr]
    · exact absurd h (by simp)
  · rename_i hr
    simp only [Option.pure_def, Option.some_inj] at h
    subst h
    rw [if_neg hr]

theorem finalChangesOne_false_none {p : Property}
    (h1 : p.reach = some CheckStatus.Success) (h2 : p.status ≠ CheckStatus.Success) :
    finalChangesOne false p = none := by
  unfold finalChangesOne
  cases hd : get_readable_description p with
  | none => rfl
  | some desc =>
    simp only [Option.bind_eq_bind, Option.some_bind]
    simp only [Bool.false_eq_true, if_neg (fun hx : False => hx)]
    rw [if_pos (show (({ p with description := desc } : Property)).reach
      = some CheckStatus.Success from h1)]
    rw [if_neg (show ¬(({ p with description := desc } : Property)).status
      = CheckStatus.Success from h2)]

/-- C3: with a fundamental failure, every Success is forced to
Undetermined; otherwise reach-Success checks are promoted to Unreachable,
and a reach-Success check whose status is not Success makes the whole
final pass abort. -/
theorem C3_final_changes_behavior (props out : List Property) :
    (final_changes props true = some out →
      List.Forall₂ (fun p q =>
        q.status = if p.status = CheckStatus.Success then CheckStatus.Undetermined
          else p.status) props out)
    ∧ (final_changes props false = some out →
      List.Forall₂ (fun p q =>
        q.status = if p.reach = some CheckStatus.Success then CheckStatus.Unreachable
          else p.status) props out)
    ∧ (∀ p, p ∈ props → p.reach = some CheckStatus.Success →
        p.status ≠ CheckStatus.Success → final_changes props false = none) := by
  refine ⟨?_, ?_, ?_⟩
  · intro h
    unfold final_changes at h
    exact mapOpt_forall₂ (fun a b hb => @finalChangesOne_true_spec a b hb) h
  · intro h
    unfold final_changes at h
    exact mapOpt_forall₂ (fun a b hb => @finalChangesOne_false_spec a b hb) h
  · intro p hmem h1 h2
    unfold final_changes
    exact mapOpt_eq_none_of_mem hmem (finalChangesOne_false_none h1 h2)

/-- Witness for C3 at a concrete batch: one Success check promoted to
Unreachable, and a Failure check with reach Success aborts the pass. -/
theorem C3_witness :
    List.Forall₂ (fun p q =>
        (q : Property).status
          = if (p : Property).reach = some CheckStatus.Success then CheckStatus.Unreachable
            else p.status)
      [({ description := "assertion failed: x", property := "foo.assertion.1",
          source_location := { column := none, file := none, function := none, line := none },
          status := CheckStatus.Success, reach := some CheckStatus.Success,
          trace := none } : Property)]
      [({ description := "assertion failed: x", property := "foo.assertion.1",
          source_location := { column := none, file := none, function := none, line := none },
          status := CheckStatus.Unreachable, reach := some CheckStatus.Success,
          trace := none } : Property)]
    ∧ final_changes
      [({ description := "assertion failed: x", property := "foo.assertion.1",
          source_location := { column := none, file := none, function := none, line := none },
          status := CheckStatus.Failure, reach := some CheckStatus.Success,
          trace := none } : Property)]
      false = none :=
  ⟨(C3_final_changes_behavior
      [({ description := "assertion failed: x", property := "foo.assertion.1",
          source_location := { column := none, file := none, function := none, line := none },
          status := CheckStatus.Success, reach := some CheckStatus.Success,
          trace := none } : Property)]
      [({ description := "assertion failed: x", property := "foo.assertion.1",
          source_location := { column := none, file := none, function := none, line := none },
          status := CheckStatus.Unreachable, reach := some CheckStatus.Success,
          trace := none } : Property)]).2.1 (by decide),
   (C3_final_changes_behavior
      [({ description := "assertion failed: x", property := "foo.assertion.1",
          source_location := { column := none, file := none, function := none, line := none },
          status := CheckStatus.Failure, reach := some CheckStatus.Success,
          trace := none } : Property)]
      []).2.2 _ (List.mem_singleton.mpr rfl) (by decide) (by decide)⟩

/-! ### Stage 2: undefined-function rewriting -/

theorem modifyUndefinedOne_spec {p q : Property} {f : Bool}
    (h : modifyUndefinedOne p = some (q, f)) :
    (if strContains p.description ASSERTION_FALSE = true
        ∧ extract_property_class p = some DEFAULT_ASSERTION
        ∧ p.source_location.file = none
      then q = { p with description := "Function with missing definition is unreachable" }
      else q = p)
    ∧ (f = true ↔ (strContains p.description ASSERTION_FALSE = true
        ∧ extract_property_class p = some DEFAULT_ASSERTION
        ∧ p.source_location.file = none ∧ p.status = CheckStatus.Failure)) := by
  unfold modifyUndefinedOne at h
  split at h
  next hc =>
    cases hcls : extract_property_class p with
    | none => rw [hcls] at h; exact absurd h (by simp)
    | some cls =>
      rw [hcls] at h
      have h2 : (if cls = DEFAULT_ASSERTION ∧ p.source_location.file = none then
          some (({ p with
              description := "Function with missing definition is unreachable" } : Property),
            decide (p.status = CheckStatus.Failure))
        else some (p, false)) = some (q, f) := h
      clear h
      split at h2
      next hcond =>
        simp only [Option.some_inj, Prod.mk.injEq] at h2
        obtain ⟨hq, hf⟩ := h2
        have hcond2 : strContains p.description ASSERTION_FALSE = true
            ∧ some cls = some DEFAULT_ASSERTION
            ∧ p.source_location.file = none :=
          ⟨hc, congrArg some hcond.1, hcond.2⟩
        rw [if_pos hcond2]
        refine ⟨hq.symm, ?_⟩
        rw [← hf]
        simp only [decide_eq_true_eq]
        constructor
        · intro hs
          exact ⟨hcond2.1, hcond2.2.1, hcond2.2.2, hs⟩
        · intro hs
          exact hs.2.2.2
      next hcond =>
        simp only [Option.some_inj, Prod.mk.injEq] at h2
        obtain ⟨hq, hf⟩ := h2
        have hcond2 : ¬(strContains p.description ASSERTION_FALSE = true
            ∧ some cls = some DEFAULT_ASSERTION
            ∧ p.source_location.file = none) := by
          rintro ⟨_, hcl, hfile⟩
          exact hcond ⟨Option.some_inj.mp hcl, hfile⟩
        rw [if_neg hcond2]
        refine ⟨hq.symm, ?_⟩
        rw [← hf]
        simp only [Bool.false_eq_true, false_iff]
        rintro ⟨ha, hb, hd, _⟩
        exact hcond2 ⟨ha, hb, hd⟩
  next hc =>
    simp only [Option.some_inj, Prod.mk.injEq] at h
    obtain ⟨hq, hf⟩ := h
    have hcond2 : ¬(strContains p.description ASSERTION_FALSE = true
        ∧ extract_property_class p = some DEFAULT_ASSERTION
        ∧ p.source_location.file = none) := by
      rintro ⟨ha, _, _⟩
      exact hc ha
    rw [if_neg hcond2]
    refine ⟨hq.symm, ?_⟩
    rw [← hf]
    simp only [Bool.false_eq_true, false_iff]
    rintro ⟨ha, hb, hd, _⟩
    exact hcond2 ⟨ha, hb, hd⟩

/-- C4 (amended): stage 2 rewrites exactly the checks whose description
CONTAINS "assertion false" (not: equals it), whose class is the generic
assertion class, and whose location has no file; the undefined-function
fault flag is raised iff some such check has status Failure. -/
theorem C4_modify_undefined_spec (props out : List Property) (flag : Bool)
    (h : modify_undefined_function_checks props = some (out, flag)) :
    List.Forall₂ (fun p q =>
      if strContains p.description ASSERTION_FALSE = true
          ∧ extract_property_class p = some DEFAULT_ASSERTION
          ∧ p.source_location.file = none
        then q = { p with description := "Function with missing definition is unreachable" }
        else q = p) props out
    ∧ (flag = true ↔ ∃ p ∈ props,
        strContains p.description ASSERTION_FALSE = true
        ∧ extract_property_class p = some DEFAULT_ASSERTION
        ∧ p.source_location.file = none
        ∧ p.status = CheckStatus.Failure) := by
  induction props generalizing out flag with
  | nil =>
    simp only [modify_undefined_function_checks, Option.some_inj, Prod.mk.injEq] at h
    obtain ⟨h1, h2⟩ := h
    subst h1
    subst h2
    exact ⟨List.Forall₂.nil, by simp⟩
  | cons p t ih =>
    simp only [modify_undefined_function_checks, Option.bind_eq_bind,
      Option.bind_eq_some] at h
    obtain ⟨⟨q, f⟩, hq, ⟨rest2, fs⟩, hrest, h⟩ := h
    simp only [Option.pure_def, Option.some_inj, Prod.mk.injEq] at h
    obtain ⟨h1, h2⟩ := h
    subst h1
    subst h2
    obtain ⟨hspec1, hspec2⟩ := modifyUndefinedOne_spec hq
    obtain ⟨ih1, ih2⟩ := ih rest2 fs hrest
    refine ⟨List.Forall₂.cons hspec1 ih1, ?_⟩
    rw [Bool.or_eq_true, hspec2, ih2]
    constructor
    · rintro (hhead | ⟨x, hx, hxp⟩)
      · exact ⟨p, List.mem_cons_self _ _, hhead⟩
      · exact ⟨x, List.mem_cons_of_mem _ hx, hxp⟩
    · rintro ⟨x, hx, hxp⟩
      rcases List.mem_cons.mp hx with rfl | hx2
      · exact Or.inl hxp
      · exact Or.inr ⟨x, hx2, hxp⟩

/-- Witness for C4 at a concrete batch: a check whose description merely
contains "assertion false" is rewritten and raises the flag. -/
theorem C4_witness :
    List.Forall₂ (fun p q =>
      if strContains (p : Property).description ASSERTION_FALSE = true
          ∧ extract_property_class p = some DEFAULT_ASSERTION
          ∧ (p : Property).source_location.file = none
        then q = { p with description := "Function with missing definition is unreachable" }
        else q = p)
      [({ description := "xx assertion false yy", property := "foo.assertion.1",
          source_location := { column := none, file := none, function := none, line := none },
          status := CheckStatus.Failure, reach := none, trace := none } : Property)]
      [({ description := "Function with missing definition is unreachable",
          property := "foo.assertion.1",
          source_location := { column := none, file := none, function := none, line := none },
          status := CheckStatus.Failure, reach := none, trace := none } : Property)]
    ∧ (true = true ↔ ∃ p ∈
        [({ description := "xx assertion false yy", property := "foo.assertion.1",
            source_location := { column := none, file := none, function := none, line := none },
            status := CheckStatus.Failure, reach := none, trace := none } : Property)],
        strContains (p : Property).description ASSERTION_FALSE = true
        ∧ extract_property_class p = some DEFAULT_ASSERTION
        ∧ (p : Property).source_location.file = none
        ∧ (p : Property).status = CheckStatus.Failure) :=
  C4_modify_undefined_spec
    [({ description := "xx assertion false yy", property := "foo.assertion.1",
        source_location := { column := none, file := none, function := none, line := none },
        status := CheckStatus.Failure, reach := none, trace := none } : Property)]
    [({ description := "Function with missing definition is unreachable",
        property := "foo.assertion.1",
        source_location := { column := none, file := none, function := none, line := none },
        status := CheckStatus.Failure, reach := none, trace := none } : Property)]
    true (by decide)

/-- Counterexample to C4 as stated: a check whose description is NOT
exactly "assertion false" (it merely contains it) is still rewritten by
stage 2, so rewriting is by containment, not equality. -/
theorem C4_counterexample :
    modify_undefined_function_checks
      [({ description := "xx assertion false yy", property := "foo.assertion.1",
          source_location := { column := none, file := none, function := none, line := none },
          status := CheckStatus.Success, reach := none, trace := none } : Property)]
      = some
        ([({ description := "Function with missing definition is unreachable",
             property := "foo.assertion.1",
             source_location := { column := none, file := none, function := none, line := none },
             status := CheckStatus.Success, reach := none, trace := none } : Property)],
         false)
    ∧ ("xx assertion false yy" : String) ≠ ASSERTION_FALSE := by
  constructor
  · decide
  · decide

/-! ### Stage 7: pointer-check filtering -/

theorem filter_ptr_spec :
    ∀ {l out : List Property}, filter_ptr_checks l = some out →
      ∀ p ∈ out, ∀ cls, extract_property_class p = some cls →
        strContains cls "pointer_arithmetic" = false
        ∧ strContains cls "pointer_primitives" = false := by
  intro l
  induction l with
  | nil =>
    intro out h
    simp only [filter_ptr_checks, Option.some_inj] at h
    subst h
    intro p hp
    simp at hp
  | cons p t ih =>
    intro out h
    simp only [filter_ptr_checks, Option.bind_eq_bind, Option.bind_eq_some] at h
    obtain ⟨cls, hcls, rest2, hrest, h⟩ := h
    split at h
    case isTrue hin =>
      simp only [Option.pure_def, Option.some_inj] at h
      subst h
      exact ih hrest
    case isFalse hin =>
      simp only [Option.pure_def, Option.some_inj] at h
      subst h
      intro x hx c hc
      rcases List.mem_cons.mp hx with rfl | hx2
      · rw [hcls] at hc
        obtain rfl := Option.some_inj.mp hc
        rw [Bool.or_eq_true] at hin
        push_neg at hin
        constructor
        · exact Bool.not_eq_true _ ▸ Bool.eq_false_iff.mpr hin.1
        · exact Bool.not_eq_true _ ▸ Bool.eq_false_iff.mpr hin.2
      · exact ih hrest x hx2 c hc

/-- C7: with the extra-pointer-checks flag false, no check whose class
contains pointer_arithmetic or pointer_primitives survives stage 7
(substring containment); with the flag true, stage 7 removes nothing. -/
theorem C7_ptr_filter (props out : List Property) :
    (stage7 false props = some out →
      ∀ p ∈ out, ∀ cls, extract_property_class p = some cls →
        strContains cls "pointer_arithmetic" = false
        ∧ strContains cls "pointer_primitives" = false)
    ∧ stage7 true props = some props := by
  constructor
  · intro h
    have h2 : filter_ptr_checks props = some out := h
    exact filter_ptr_spec h2
  · rfl

/-- Fixture for the C7 witness: a pointer_arithmetic-class check. -/
def c7ptrProp : Property :=
  { description := "ptr", property := "foo.pointer_arithmetic.1",
    source_location := { column := none, file := none, function := none, line := none },
    status := CheckStatus.Success, reach := none, trace := none }

/-- Fixture for the C7 witness: an assertion-class check. -/
def c7keptProp : Property :=
  { description := "assertion failed", property := "foo.assertion.2",
    source_location := { column := none, file := none, function := none, line := none },
    status := CheckStatus.Success, reach := none, trace := none }

/-- Witness for C7 at a concrete batch: the pointer_arithmetic check is
removed and the surviving assertion check has a pointer-free class. -/
theorem C7_witness :
    ∀ p ∈ [c7keptProp],
      ∀ cls, extract_property_class p = some cls →
        strContains cls "pointer_arithmetic" = false
        ∧ strContains cls "pointer_primitives" = false :=
  (C7_ptr_filter [c7ptrProp, c7keptProp] [c7keptProp]).1 (by decide)

/-! ### C1: verdict and verdict line -/

/-- C1: the overall verdict of postprocessing is true iff no finalized
check has status Failure, and the report contains the verdict line, whose
text mentions SUCCESSFUL iff no Failure check remains. -/
theorem C1_verdict_and_line (props : List Property) (extra_ptr_checks : Bool)
    (final : List Property) (verdict : Bool)
    (h : postprocess_result props extra_ptr_checks = some (final, verdict)) :
    (verdict = true ↔ ∀ p ∈ final, p.status ≠ CheckStatus.Failure)
    ∧ (∀ renderLoc show_checks str,
        format_result renderLoc final show_checks = some str →
        ∃ A B, str = A ++ ("\nVERIFICATION:- "
          ++ verification_result (numberTestsFailed final) ++ "\n") ++ B)
    ∧ (strContains ("\nVERIFICATION:- "
          ++ verification_result (numberTestsFailed final) ++ "\n") "SUCCESSFUL" = true
        ↔ ∀ p ∈ final, p.status ≠ CheckStatus.Failure) := by
  obtain ⟨pu, f1, psan, pann, new, h1, h2, h3, h4, h5, hv⟩ := postprocess_inv h
  refine ⟨?_, ?_, ?_⟩
  · rw [hv]
    exact determine_result_eq_true_iff final
  · intro renderLoc show_checks str hstr
    unfold format_result at hstr
    simp only [Option.bind_eq_bind, Option.bind_eq_some] at hstr
    obtain ⟨msgs, hmsgs, hstr⟩ := hstr
    simp only [Option.pure_def, Option.some_inj] at hstr
    refine ⟨(if show_checks then "\nRESULTS:\n" ++ checkBlocks renderLoc final else "")
      ++ (if show_checks then "\nSUMMARY:" else "\nVERIFICATION RESULT:")
      ++ ("\n ** " ++ toString (numberTestsFailed final) ++ " of "
          ++ toString final.length ++ " failed")
      ++ otherStatusStr (numberTestsUndetermined final) (numberTestsUnreachable final)
      ++ "\n"
      ++ concatAll msgs,
      (if has_check_failures final UNSUPPORTED_CONSTRUCT_DESC then unsupportedWarning
        else "")
      ++ (if has_check_failures final UNWINDING_ASSERT_DESC then unwindingTip else ""), ?_⟩
    rw [← hstr]
    simp only [String.append_assoc]
  · by_cases h0 : numberTestsFailed final = 0
    · have hvr : verification_result (numberTestsFailed final) = "SUCCESSFUL " := by
        unfold verification_result
        rw [if_pos h0]
      rw [hvr]
      exact iff_of_true (by decide) ((numberTestsFailed_eq_zero_iff final).mp h0)
    · have hvr : verification_result (numberTestsFailed final) = "FAILED" := by
        unfold verification_result
        rw [if_neg h0]
      rw [hvr]
      refine iff_of_false (by decide) ?_
      intro hall
      exact h0 ((numberTestsFailed_eq_zero_iff final).mpr hall)

/-- Fixture for the C1 and C2 witnesses: a failing assertion check that
survives the pipeline unchanged. -/
def c1failProp : Property :=
  { description := "assertion failed: boom", property := "foo.assertion.1",
    source_location := { column := none, file := some "f.rs", function := none, line := none },
    status := CheckStatus.Failure, reach := none, trace := none }

/-- Witness for C1 at a concrete batch with one Failure check: the
verdict is false. -/
theorem C1_witness :
    false = true ↔ ∀ p ∈ [c1failProp], p.status ≠ CheckStatus.Failure :=
  (C1_verdict_and_line [c1failProp] false [c1failProp] false (by decide)).1

/-! ### C2: a Failure status is never rewritten -/

/-- C2: every finalized check derives from an input check of the batch
with either an identical status or a Success rewritten to Undetermined or
Unreachable; in particular a retained Failure check still has status
Failure. -/
theorem C2_failure_preserved (props : List Property) (extra_ptr_checks : Bool)
    (final : List Property) (verdict : Bool)
    (h : postprocess_result props extra_ptr_checks = some (final, verdict)) :
    Derives (fun p q => q.status = p.status
      ∨ (p.status = CheckStatus.Success
          ∧ (q.status = CheckStatus.Undetermined ∨ q.status = CheckStatus.Unreachable)))
      props final := by
  obtain ⟨pu, f1, psan, pann, new, h1, h2, h3, h4, h5, hv⟩ := postprocess_inv h
  have d1 : Derives (fun p q => q.status = p.status) props pu :=
    Derives.of_forall₂ (modify_status_forall₂ h1)
  have d2 : Derives (fun p q => q.status = p.status) pu (filter_reach_checks pu).1 := by
    refine (Derives.of_sublist ?_).mono (fun p q hpq => by rw [hpq])
    exact List.filter_sublist _
  have d3 : Derives (fun p q => q.status = p.status) (filter_reach_checks pu).1 psan :=
    (Derives.of_sublist (filter_sanity_sublist h2)).mono (fun p q hpq => by rw [hpq])
  obtain ⟨m, hm, hmap⟩ := annotate_eq_map h3
  have d4 : Derives (fun p q => q.status = p.status) psan pann := by
    rw [hmap]
    exact Derives.of_forall₂ (map_status_forall₂ (annotateOne_status m) psan)
  have d5 : Derives (fun p q => q.status = p.status) pann
      (remove_check_ids_from_description pann) := by
    unfold remove_check_ids_from_description
    exact Derives.of_forall₂
      (@map_status_forall₂
        (fun prop => { prop with description := String.mk (stripCheckId prop.description.data) })
        (fun p => rfl) pann)
  have d6 : Derives (fun p q => q.status = p.status)
      (remove_check_ids_from_description pann) new :=
    (Derives.of_sublist (stage7_sublist h4)).mono (fun p q hpq => by rw [hpq])
  have d7 : Derives (fun p q => q.status = p.status
      ∨ (p.status = CheckStatus.Success
          ∧ (q.status = CheckStatus.Undetermined ∨ q.status = CheckStatus.Unreachable)))
      new final := by
    unfold final_changes at h5
    exact Derives.of_forall₂
      (mapOpt_forall₂ (fun a b hb => @finalChangesOne_status _ a b hb) h5)
  have dchain : Derives (fun p q => q.status = p.status) props new :=
    (((d1.comp_statusEq d2).comp_statusEq d3).comp_statusEq d4).comp_statusEq
      (d5.comp_statusEq d6)
  refine (dchain.comp d7).mono ?_
  rintro p q ⟨r, hr1, (hr2 | ⟨hr2a, hr2b⟩)⟩
  · exact Or.inl (by rw [hr2, hr1])
  · exact Or.inr ⟨by rw [← hr1, hr2a], hr2b⟩

/-- Witness for C2 at a concrete batch: the Failure check keeps its
status through the pipeline. -/
theorem C2_witness :
    Derives (fun p q => q.status = p.status
      ∨ (p.status = CheckStatus.Success
          ∧ (q.status = CheckStatus.Undetermined ∨ q.status = CheckStatus.Unreachable)))
      [c1failProp] [c1failProp] :=
  C2_failure_preserved [c1failProp] false [c1failProp] false (by decide)

/-! ### Reach-map construction: duplicates are fatal (C5) and lookup is
order-independent (C6) -/

theorem mapLookup_cons_isSome {acc : List (List Char × CheckStatus)}
    {k k2 : List Char} {v : CheckStatus}
    (h : (mapLookup acc k).isSome = true) :
    (mapLookup ((k2, v) :: acc) k).isSome = true := by
  unfold mapLookup
  split
  · rfl
  · exact h

theorem buildReachMapAux_key_dup {b : Property} {t : List Char} {l3 : List Property}
    (hb : extractCheckId b.description.data = some t) :
    ∀ (l2 : List Property) (acc : List (List Char × CheckStatus)),
      (mapLookup acc ('[' :: (t ++ [']']))).isSome = true →
      buildReachMapAux acc (l2 ++ b :: l3) = none := by
  intro l2
  induction l2 with
  | nil =>
    intro acc hdup
    simp only [List.nil_append, buildReachMapAux, Option.bind_eq_bind, hb,
      Option.some_bind]
    rw [if_pos hdup]
  | cons c r ih =>
    intro acc hdup
    simp only [List.cons_append, buildReachMapAux, Option.bind_eq_bind]
    cases hc : extractCheckId c.description.data with
    | none => rfl
    | some tc =>
      simp only [Option.some_bind]
      split
      · rfl
      · exact ih _ (mapLookup_cons_isSome hdup)

theorem buildReachMapAux_dup {a b : Property} {t : List Char}
    {l2 l3 : List Property}
    (ha : extractCheckId a.description.data = some t)
    (hb : extractCheckId b.description.data = some t) :
    ∀ (l1 : List Property) (acc : List (List Char × CheckStatus)),
      buildReachMapAux acc (l1 ++ a :: l2 ++ b :: l3) = none := by
  intro l1
  induction l1 with
  | nil =>
    intro acc
    simp only [List.nil_append, List.cons_append, buildReachMapAux,
      Option.bind_eq_bind, ha, Option.some_bind]
    split
    · rfl
    · refine buildReachMapAux_key_dup hb l2 _ ?_
      unfold mapLookup
      rw [if_pos rfl]
      rfl
  | cons c r ih =>
    intro acc
    simp only [List.cons_append, buildReachMapAux, Option.bind_eq_bind]
    cases hc : extractCheckId c.description.data with
    | none => rfl
    | some tc =>
      simp only [Option.some_bind]
      split
      · rfl
      · exact ih _

/-- C5: two reachability markers carrying the same embedded check-id
token anywhere in the marker list make correlation fail fatally; no map
is produced and no annotated output exists. -/
theorem C5_duplicate_marker_fatal (props l1 l2 l3 : List Property) (a b : Property)
    (t : List Char)
    (ha : extractCheckId a.description.data = some t)
    (hb : extractCheckId b.description.data = some t) :
    annotate_properties_with_reach_results props (l1 ++ a :: l2 ++ b :: l3) = none := by
  unfold annotate_properties_with_reach_results
  rw [buildReachMapAux_dup ha hb l1 []]
  rfl

/-- Fixture for the C5 witness: a reachability marker check. -/
def c5marker : Property :=
  { description := "[KANI_REACHABILITY_CHECK] KANI_CHECK_ID_foo.assertion.1_1",
    property := "foo.reachability_check.1",
    source_location := { column := none, file := none, function := none, line := none },
    status := CheckStatus.Success, reach := none, trace := none }

/-- Witness for C5 at a concrete batch: two identical markers abort
correlation. -/
theorem C5_witness :
    annotate_properties_with_reach_results [] [c5marker, c5marker] = none :=
  C5_duplicate_marker_fatal [] [] [] [] c5marker c5marker
    "KANI_CHECK_ID_foo.assertion.1_1".data (by decide) (by decide)

theorem buildReachMapAux_preserves {k : List Char} {v : CheckStatus} :
    ∀ {l : List Property} {acc m : List (List Char × CheckStatus)},
      buildReachMapAux acc l = some m → mapLookup acc k = some v →
      mapLookup m k = some v := by
  intro l
  induction l with
  | nil =>
    intro acc m h hacc
    simp only [buildReachMapAux, Option.some_inj] at h
    subst h
    exact hacc
  | cons rc rest ih =>
    intro acc m h hacc
    simp only [buildReachMapAux, Option.bind_eq_bind] at h
    cases hrc : extractCheckId rc.description.data with
    | none => rw [hrc] at h; exact absurd h (by simp)
    | some tok =>
      rw [hrc] at h
      simp only [Option.some_bind] at h
      split at h
      · exact absurd h (by simp)
      · rename_i hfresh
        refine ih h ?_
        unfold mapLookup
        split
        · rename_i hkey
          subst hkey
          rw [hacc] at hfresh
          exact absurd rfl hfresh
        · exact hacc

theorem buildReachMapAux_mem {mk : Property} {t : List Char}
    (hmk : extractCheckId mk.description.data = some t) :
    ∀ {l : List Property} {acc m : List (List Char × CheckStatus)},
      buildReachMapAux acc l = some m → mk ∈ l →
      mapLookup m ('[' :: (t ++ [']'])) = some mk.status := by
  intro l
  induction l with
  | nil =>
    intro acc m _ hmem
    simp at hmem
  | cons rc rest ih =>
    intro acc m h hmem
    simp only [buildReachMapAux, Option.bind_eq_bind] at h
    rcases List.mem_cons.mp hmem with rfl | hmem2
    · rw [hmk] at h
      simp only [Option.some_bind] at h
      split at h
      · exact absurd h (by simp)
      · refine buildReachMapAux_preserves h ?_
        unfold mapLookup
        rw [if_pos rfl]
    · cases hrc : extractCheckId rc.description.data with
      | none => rw [hrc] at h; exact absurd h (by simp)
      | some tok =>
        rw [hrc] at h
        simp only [Option.some_bind] at h
        split at h
        · exact absurd h (by simp)
        · exact ih h hmem2

theorem buildReachMapAux_complete :
    ∀ {l : List Property} {acc m : List (List Char × CheckStatus)},
      buildReachMapAux acc l = some m →
      ∀ k v, mapLookup m k = some v →
        mapLookup acc k = some v
        ∨ ∃ mk, mk ∈ l ∧ ∃ t, extractCheckId mk.description.data = some t
            ∧ k = '[' :: (t ++ [']']) ∧ v = mk.status := by
  intro l
  induction l with
  | nil =>
    intro acc m h k v hv
    simp only [buildReachMapAux, Option.some_inj] at h
    subst h
    exact Or.inl hv
  | cons rc rest ih =>
    intro acc m h k v hv
    simp only [buildReachMapAux, Option.bind_eq_bind] at h
    cases hrc : extractCheckId rc.description.data with
    | none => rw [hrc] at h; exact absurd h (by simp)
    | some tok =>
      rw [hrc] at h
      simp only [Option.some_bind] at h
      split at h
      · exact absurd h (by simp)
      · rcases ih h k v hv with hacc | ⟨mk, hmk, t, ht, hk, hvs⟩
        · unfold mapLookup at hacc
          split at hacc
          · rename_i hkey
            simp only [Option.some_inj] at hacc
            exact Or.inr ⟨rc, List.mem_cons_self _ _, tok, hrc, hkey.symm, hacc.symm⟩
          · exact Or.inl hacc
        · exact Or.inr ⟨mk, List.mem_cons_of_mem _ hmk, t, ht, hk, hvs⟩

theorem reachMap_lookup_mono {la lb : List Property}
    {ma mb : List (List Char × CheckStatus)}
    (hha : buildReachMapAux [] la = some ma) (hhb : buildReachMapAux [] lb = some mb)
    (hsub : ∀ x, x ∈ la → x ∈ lb) :
    ∀ k v, mapLookup ma k = some v → mapLookup mb k = some v := by
  intro k v hv
  rcases buildReachMapAux_complete hha k v hv with hacc | ⟨mk, hmk, t, ht, hk, hvs⟩
  · simp [mapLookup] at hacc
  · subst hk
    subst hvs
    exact buildReachMapAux_mem ht hhb (hsub _ hmk)

theorem reachMap_lookup_ext {l1 l2 : List Property}
    {m1 m2 : List (List Char × CheckStatus)}
    (h1 : buildReachMapAux [] l1 = some m1) (h2 : buildReachMapAux [] l2 = some m2)
    (hmem : ∀ x, x ∈ l1 ↔ x ∈ l2) :
    ∀ k, mapLookup m1 k = mapLookup m2 k := by
  intro k
  cases hk1 : mapLookup m1 k with
  | some v =>
    exact (reachMap_lookup_mono h1 h2 (fun x => (hmem x).mp) k v hk1).symm
  | none =>
    cases hk2 : mapLookup m2 k with
    | none => rfl
    | some v =>
      have := reachMap_lookup_mono h2 h1 (fun x => (hmem x).mpr) k v hk2
      rw [this] at hk1
      exact absurd hk1 (by simp)

theorem annotateOne_congr {m1 m2 : List (List Char × CheckStatus)}
    (hext : ∀ k, mapLookup m1 k = mapLookup m2 k) (p : Property) :
    annotateOne m1 p = annotateOne m2 p := by
  unfold annotateOne
  cases bracketMatch p.description.data with
  | none => rfl
  | some tok =>
    dsimp only
    rw [hext tok]

/-- C6: correlation is order-independent in the marker list (any two
marker lists with the same members produce the same annotated output),
a real check whose description carries the bracketed token of a marker
gets that marker's status as its reach field, and a real check with no
token match is returned unchanged, without an error. -/
theorem C6_correlation_order_independent (props l1 l2 out1 out2 : List Property)
    (h1 : annotate_properties_with_reach_results props l1 = some out1)
    (h2 : annotate_properties_with_reach_results props l2 = some out2)
    (hmem : ∀ x, x ∈ l1 ↔ x ∈ l2) :
    out1 = out2
    ∧ (∀ (mk : Property) (t : List Char) (i : Nat) (p : Property),
        mk ∈ l1 → extractCheckId mk.description.data = some t →
        props[i]? = some p →
        bracketMatch p.description.data = some ('[' :: (t ++ [']'])) →
        out1[i]? = some { p with reach := some mk.status })
    ∧ (∀ (i : Nat) (p : Property),
        props[i]? = some p → bracketMatch p.description.data = none →
        out1[i]? = some p)
    ∧ (∀ (i : Nat) (p : Property) (tok : List Char),
        props[i]? = some p → bracketMatch p.description.data = some tok →
        (∀ mk ∈ l1, ∀ t, extractCheckId mk.description.data = some t →
          '[' :: (t ++ [']']) ≠ tok) →
        out1[i]? = some p) := by
  obtain ⟨m1, hm1, hout1⟩ := annotate_eq_map h1
  obtain ⟨m2, hm2, hout2⟩ := annotate_eq_map h2
  have hext := reachMap_lookup_ext hm1 hm2 hmem
  refine ⟨?_, ?_, ?_, ?_⟩
  · rw [hout1, hout2]
    have : annotateOne m1 = annotateOne m2 := funext (annotateOne_congr hext)
    rw [this]
  · intro mk t i p hmk ht hp hbm
    rw [hout1, List.getElem?_map, hp]
    have : annotateOne m1 p = { p with reach := some mk.status } := by
      unfold annotateOne
      rw [hbm]
      dsimp only
      rw [buildReachMapAux_mem ht hm1 hmk]
    rw [Option.map_some', this]
  · intro i p hp hbm
    rw [hout1, List.getElem?_map, hp, Option.map_some', annotateOne_reach_unset hbm]
  · intro i p tok hp hbm hnomk
    have hlook : mapLookup m1 tok = none := by
      cases hl : mapLookup m1 tok with
      | none => rfl
      | some v =>
        exfalso
        rcases buildReachMapAux_complete hm1 tok v hl with hacc | ⟨mk, hmk, t, ht, hk, _⟩
        · simp [mapLookup] at hacc
        · exact hnomk mk hmk t ht hk.symm
    have hone : annotateOne m1 p = p := by
      unfold annotateOne
      rw [hbm]
      dsimp only
      rw [hlook]
    rw [hout1, List.getElem?_map, hp, Option.map_some', hone]

/-- Fixture for the C6 witness: a real check carrying the token of the
marker in `c5marker`-style form. -/
def c6realProp : Property :=
  { description := "[KANI_CHECK_ID_foo.assertion.1_1] assertion failed: x",
    property := "foo.assertion.1",
    source_location := { column := none, file := none, function := none, line := none },
    status := CheckStatus.Success, reach := none, trace := none }

/-- Fixture for the C6 witness: a second marker, distinct token. -/
def c6marker2 : Property :=
  { description := "[KANI_REACHABILITY_CHECK] KANI_CHECK_ID_bar.assertion.2_2",
    property := "bar.reachability_check.1",
    source_location := { column := none, file := none, function := none, line := none },
    status := CheckStatus.Failure, reach := none, trace := none }

/-- Fixture for the C6 witness: the annotated real check. -/
def c6realAnnotated : Property :=
  { description := "[KANI_CHECK_ID_foo.assertion.1_1] assertion failed: x",
    property := "foo.assertion.1",
    source_location := { column := none, file := none, function := none, line := none },
    status := CheckStatus.Success, reach := some CheckStatus.Success, trace := none }

/-- Witness for C6 at a concrete batch: the real check carrying the
marker's token is annotated with the marker's Success status. -/
theorem C6_witness :
    [c6realAnnotated][(0 : Nat)]? = some { c6realProp with reach := some c5marker.status } :=
  (C6_correlation_order_independent [c6realProp] [c5marker, c6marker2]
    [c6marker2, c5marker] [c6realAnnotated] [c6realAnnotated]
    (by decide) (by decide)
    (by intro x; constructor <;> (intro hx; simp only [List.mem_cons] at hx ⊢; tauto))).2.1
    c5marker "KANI_CHECK_ID_foo.assertion.1_1".data 0 c6realProp
    (List.mem_cons_self _ _) (by decide) (by decide) (by decide)

/-! ### Regex machinery: basic facts -/

theorem findFrom_eq_some_of {f : Nat → Bool} :
    ∀ {fuel i j : Nat}, i ≤ j → j < i + fuel → f j = true →
      (∀ q, i ≤ q → q < j → f q = false) → findFrom f i fuel = some j := by
  intro fuel
  induction fuel with
  | zero => intro i j h1 h2 _ _; omega
  | succ m ih =>
    intro i j h1 h2 h3 h4
    unfold findFrom
    rcases Nat.eq_or_lt_of_le h1 with rfl | hlt
    · rw [h3]
      rfl
    · rw [h4 i (Nat.le_refl _) hlt]
      simp only [Bool.false_eq_true, if_neg (fun hx : False => hx)]
      exact ih hlt (by omega) h3 (fun q hq1 hq2 => h4 q (by omega) hq2)

theorem findFrom_eq_none {f : Nat → Bool} :
    ∀ {fuel i : Nat}, findFrom f i fuel = none →
      ∀ q, i ≤ q → q < i + fuel → f q = false := by
  intro fuel
  induction fuel with
  | zero => intro i h q hq1 hq2; omega
  | succ m ih =>
    intro i h q hq1 hq2
    unfold findFrom at h
    cases hf : f i with
    | true => rw [hf] at h; exact absurd h (by simp)
    | false =>
      rw [hf] at h
      simp only [Bool.false_eq_true, if_neg (fun hx : False => hx)] at h
      rcases Nat.eq_or_lt_of_le hq1 with rfl | hlt
      · exact hf
      · exact ih h q hlt (by omega)

theorem isPrefixOf_length_le {p l : List Char} (h : p.isPrefixOf l = true) :
    p.length ≤ l.length :=
  (List.isPrefixOf_iff_prefix.mp h).length_le

theorem isPrefixOf_of_append_left {p a b : List Char}
    (h : p.isPrefixOf (a ++ b) = true) (hlen : p.length ≤ a.length) :
    p.isPrefixOf a = true := by
  rw [List.isPrefixOf_iff_prefix] at h ⊢
  rw [List.prefix_iff_eq_take] at h ⊢
  rw [h]
  rw [List.take_append_eq_append_take]
  rw [Nat.sub_eq_zero_of_le hlen]
  simp

theorem isPrefixOf_append_right {p a b : List Char}
    (h : p.isPrefixOf a = true) : p.isPrefixOf (a ++ b) = true := by
  rw [List.isPrefixOf_iff_prefix] at h ⊢
  exact h.trans (List.prefix_append a b)

theorem isPrefixOf_of_take {p l : List Char} {n : Nat}
    (h : p.isPrefixOf (l.take n) = true) : p.isPrefixOf l = true := by
  rw [List.isPrefixOf_iff_prefix] at h ⊢
  exact h.trans (List.take_prefix n l)

theorem isPrefixOf_false_of_length {p l : List Char} (h : l.length < p.length) :
    p.isPrefixOf l = false := by
  cases hp : p.isPrefixOf l with
  | false => rfl
  | true => exact absurd (isPrefixOf_length_le hp) (by omega)

theorem noNewline_take {s : List Char} (h : noNewline s = true) (k : Nat) :
    noNewline (s.take k) = true := by
  unfold noNewline at h ⊢
  rw [List.all_eq_true] at h ⊢
  intro c hc
  exact h c (List.take_subset k s hc)

theorem noNewline_drop {s : List Char} (h : noNewline s = true) (k : Nat) :
    noNewline (s.drop k) = true := by
  unfold noNewline at h ⊢
  rw [List.all_eq_true] at h ⊢
  intro c hc
  exact h c (List.drop_subset k s hc)

theorem LIT_BRACKET_length : LIT_BRACKET.length = 15 := by decide

theorem tailMatchB_cons_underscore (r : List Char) :
    tailMatchB ('_' :: r) = decide ((r.dropWhile Char.isDigit).take 2 = [']', ' ']) := rfl

theorem tailMatchLen_cons_underscore (r : List Char) :
    tailMatchLen ('_' :: r) = 1 + (r.takeWhile Char.isDigit).length + 2 := rfl

theorem tailMatchB_pos {u : List Char} (h : tailMatchB u = true) :
    1 ≤ tailMatchLen u ∧ tailMatchLen u ≤ u.length := by
  cases u with
  | nil => exact absurd h (by decide)
  | cons c r =>
    by_cases hc : c = '_'
    · subst hc
      rw [tailMatchB_cons_underscore] at h
      rw [tailMatchLen_cons_underscore]
      rw [decide_eq_true_eq] at h
      have hlen2 : 2 ≤ (r.dropWhile Char.isDigit).length := by
        have := congrArg List.length h
        rw [List.length_take] at this
        simp at this
        omega
      have hsplit := congrArg List.length (List.takeWhile_append_dropWhile Char.isDigit r)
      rw [List.length_append] at hsplit
      constructor
      · omega
      · simp only [List.length_cons]
        omega
    · exfalso
      unfold tailMatchB at h
      revert h
      split
      · rename_i heq
        intro h
        injection heq with hh1 hh2
        exact hc hh1
      · intro h
        exact absurd h (by decide)

theorem tailMatchB_ne_underscore {c : Char} {l : List Char} (hc : ¬c = '_') :
    tailMatchB (c :: l) = false := by
  unfold tailMatchB
  split
  · rename_i heq
    injection heq with h1 h2
    exact absurd h1 hc
  · rfl

theorem replMatchAt_inv {s : List Char} {i n : Nat}
    (h : replMatchAt s i = some n) :
    LIT_BRACKET.isPrefixOf (s.drop i) = true
    ∧ ∃ k, greedyKB (s.drop (i + 15)) = some k
        ∧ n = 15 + k + tailMatchLen (s.drop (i + 15 + k)) := by
  unfold replMatchAt at h
  split at h
  · rename_i hlit
    cases hg : greedyKB (s.drop (i + 15)) with
    | none => rw [hg] at h; exact absurd h (by simp)
    | some k =>
      rw [hg] at h
      simp only [Option.some_inj] at h
      exact ⟨hlit, k, rfl, h.symm⟩
  · exact absurd h (by simp)

theorem greedyKB_inv {u : List Char} {k : Nat} (h : greedyKB u = some k) :
    k ≤ u.length ∧ noNewline (u.take k) = true ∧ tailMatchB (u.drop k) = true
    ∧ ∀ q, k < q → q ≤ u.length →
        (noNewline (u.take q) && tailMatchB (u.drop q)) = false := by
  unfold greedyKB at h
  obtain ⟨hpred, hle, hmax⟩ := findMaxLe_eq_some h
  rw [Bool.and_eq_true] at hpred
  exact ⟨hle, hpred.1, hpred.2, hmax⟩

theorem drop_add {s : List Char} (a b : Nat) : (s.drop a).drop b = s.drop (a + b) := by
  rw [List.drop_drop]
  try rw [Nat.add_comm]

theorem replMatchAt_facts {s : List Char} {i n : Nat}
    (h : replMatchAt s i = some n) :
    ∃ k, i + 15 ≤ s.length
      ∧ greedyKB (s.drop (i + 15)) = some k
      ∧ tailMatchB (s.drop (i + 15 + k)) = true
      ∧ n = 15 + k + tailMatchLen (s.drop (i + 15 + k))
      ∧ i + 15 + k + 1 ≤ i + n
      ∧ i + n ≤ s.length := by
  obtain ⟨hlit, k, hg, hn⟩ := replMatchAt_inv h
  obtain ⟨hkle, hnl, htail, hmax⟩ := greedyKB_inv hg
  rw [drop_add (i + 15) k] at htail
  have hlen15 : i + 15 ≤ s.length := by
    have h1 := isPrefixOf_length_le hlit
    rw [LIT_BRACKET_length, List.length_drop] at h1
    omega
  have hdroplen : (s.drop (i + 15)).length = s.length - (i + 15) := List.length_drop _ _
  obtain ⟨htm1, htm2⟩ := tailMatchB_pos htail
  rw [List.length_drop] at htm2
  refine ⟨k, hlen15, hg, htail, hn, by omega, by omega⟩

theorem replFindStart_spec {s : List Char} {i : Nat}
    (h : replFindStart s = some i) :
    (replMatchAt s i).isSome = true ∧ ∀ q, q < i → replMatchAt s q = none := by
  obtain ⟨hp, _, hmin⟩ := findFrom_eq_some h
  refine ⟨hp, fun q hq => ?_⟩
  have := hmin q (Nat.zero_le _) hq
  cases hmat : replMatchAt s q with
  | none => rfl
  | some n => rw [hmat] at this; exact absurd this (by simp)

theorem replFindStart_eq_none_of {s : List Char}
    (h : ∀ q, replMatchAt s q = none) : replFindStart s = none := by
  unfold replFindStart
  refine findFrom_eq_none_of (fun q _ _ => ?_)
  rw [h q]
  rfl

theorem replFindStart_eq_some_of {s : List Char} {i : Nat}
    (h1 : (replMatchAt s i).isSome = true) (h2 : i ≤ s.length)
    (h3 : ∀ q, q < i → replMatchAt s q = none) : replFindStart s = some i := by
  unfold replFindStart
  refine findFrom_eq_some_of (Nat.zero_le _) (by omega) h1 (fun q _ hq => ?_)
  rw [h3 q hq]
  rfl

theorem stripCheckId_of_match {s : List Char} {i n : Nat}
    (h1 : replFindStart s = some i) (h2 : replMatchAt s i = some n) :
    stripCheckId s = s.take i ++ s.drop (i + n) := by
  unfold stripCheckId
  rw [h1]
  dsimp only
  rw [h2]

theorem stripCheckId_of_no_match {s : List Char} (h : replFindStart s = none) :
    stripCheckId s = s := by
  unfold stripCheckId
  rw [h]

/-! ### C8: idempotency of check-id stripping on newline-free input -/

theorem strip_result_no_match {s : List Char} {i n : Nat}
    (hnl : noNewline s = true)
    (hstart : replFindStart s = some i) (hmat : replMatchAt s i = some n) :
    ∀ q, replMatchAt (s.take i ++ s.drop (i + n)) q = none := by
  obtain ⟨k, hlen15, hg, htail, hn, hend1, hend2⟩ := replMatchAt_facts hmat
  obtain ⟨hkle, _, _, hmax⟩ := greedyKB_inv hg
  rw [List.length_drop] at hkle
  have htail_after : ∀ j, i + 15 + k < j → tailMatchB (s.drop j) = false := by
    intro j hj
    by_cases hjlen : j ≤ s.length
    · have hk2 : (noNewline ((s.drop (i + 15)).take (j - (i + 15)))
          && tailMatchB ((s.drop (i + 15)).drop (j - (i + 15)))) = false := by
        refine hmax _ (by omega) ?_
        rw [List.length_drop]
        omega
      rw [drop_add] at hk2
      have harith : i + 15 + (j - (i + 15)) = j := by omega
      rw [harith] at hk2
      rw [noNewline_take (noNewline_drop hnl _) _, Bool.true_and] at hk2
      exact hk2
    · have hdrop : s.drop j = [] := List.drop_eq_nil_of_le (by omega)
      rw [hdrop]
      rfl
  have hlit_before : ∀ q, q < i → LIT_BRACKET.isPrefixOf (s.drop q) = false := by
    intro q hq
    cases hp : LIT_BRACKET.isPrefixOf (s.drop q) with
    | false => rfl
    | true =>
      exfalso
      have hnone := (replFindStart_spec hstart).2 q hq
      have hcand : (noNewline ((s.drop (q + 15)).take (i + 15 + k - (q + 15)))
          && tailMatchB ((s.drop (q + 15)).drop (i + 15 + k - (q + 15)))) = true := by
        rw [drop_add]
        have harith : q + 15 + (i + 15 + k - (q + 15)) = i + 15 + k := by omega
        rw [harith]
        rw [Bool.and_eq_true]
        exact ⟨noNewline_take (noNewline_drop hnl _) _, htail⟩
      cases hgq : greedyKB (s.drop (q + 15)) with
      | some k2 =>
        have hsome : replMatchAt s q
            = some (15 + k2 + tailMatchLen (s.drop (q + 15 + k2))) := by
          unfold replMatchAt
          rw [hp, hgq]
          simp only [if_pos trivial]
        rw [hsome] at hnone
        exact absurd hnone (by simp)
      | none =>
        have hfalse := findMaxLe_eq_none hgq (i + 15 + k - (q + 15)) (by
          rw [List.length_drop]
          omega)
        rw [hcand] at hfalse
        exact absurd hfalse (by simp)
  intro q
  cases hmq : replMatchAt (s.take i ++ s.drop (i + n)) q with
  | none => rfl
  | some nq =>
    exfalso
    obtain ⟨kq, hq15, hgq, htailq, hnq, _, _⟩ := replMatchAt_facts hmq
    have hti : (s.take i).length = i := by
      rw [List.length_take]
      exact Nat.min_eq_left (by omega)
    by_cases hJ : i ≤ q + 15 + kq
    · have hdropJ : (s.take i ++ s.drop (i + n)).drop (q + 15 + kq)
          = s.drop (i + n + (q + 15 + kq - i)) := by
        have harith : q + 15 + kq = (s.take i).length + (q + 15 + kq - i) := by
          rw [hti]
          omega
        nth_rewrite 1 [harith]
        rw [List.drop_append, drop_add]
      rw [hdropJ] at htailq
      rw [htail_after (i + n + (q + 15 + kq - i)) (by omega)] at htailq
      exact absurd htailq (by simp)
    · push_neg at hJ
      obtain ⟨hlitq, _⟩ := replMatchAt_inv hmq
      have hdropq : (s.take i ++ s.drop (i + n)).drop q
          = (s.drop q).take (i - q) ++ s.drop (i + n) := by
        rw [List.drop_append_of_le_length (by rw [hti]; omega)]
        rw [List.drop_take]
      rw [hdropq] at hlitq
      have hlen_take : ((s.drop q).take (i - q)).length = i - q := by
        rw [List.length_take, List.length_drop]
        exact Nat.min_eq_left (by omega)
      have hlit_pre : LIT_BRACKET.isPrefixOf ((s.drop q).take (i - q)) = true :=
        isPrefixOf_of_append_left hlitq (by rw [hlen_take, LIT_BRACKET_length]; omega)
      have hlit_s : LIT_BRACKET.isPrefixOf (s.drop q) = true := isPrefixOf_of_take hlit_pre
      rw [hlit_before q (by omega)] at hlit_s
      exact absurd hlit_s (by simp)

theorem stripCheckId_idem_core {s : List Char} (hnl : noNewline s = true) :
    stripCheckId (stripCheckId s) = stripCheckId s := by
  cases hstart : replFindStart s with
  | none => rw [stripCheckId_of_no_match hstart, stripCheckId_of_no_match hstart]
  | some i =>
    have hisSome := (replFindStart_spec hstart).1
    cases hmat : replMatchAt s i with
    | none =>
      rw [hmat] at hisSome
      exact absurd hisSome (by simp)
    | some n =>
      rw [stripCheckId_of_match hstart hmat]
      exact stripCheckId_of_no_match
        (replFindStart_eq_none_of (strip_result_no_match hnl hstart hmat))

/-- C8 (amended): the check-id stripping operation is idempotent on every
batch of newline-free descriptions (the Rust regex `.` never matches a
newline, so with a newline between two tokens a second application can
remove a second match; without newlines the single greedy leftmost match
absorbs everything that could match again). -/
theorem C8_strip_idempotent (props : List Property)
    (h : ∀ p ∈ props, noNewline p.description.data = true) :
    remove_check_ids_from_description (remove_check_ids_from_description props)
      = remove_check_ids_from_description props := by
  unfold remove_check_ids_from_description
  rw [List.map_map]
  refine List.map_congr_left (fun p hp => ?_)
  show ({ p with
      description := String.mk (stripCheckId (stripCheckId p.description.data)) } : Property)
    = { p with description := String.mk (stripCheckId p.description.data) }
  rw [stripCheckId_idem_core (h p hp)]

/-- Fixture for the C8 witness: a single-line description with a token. -/
def c8prop : Property :=
  { description := "[KANI_CHECK_ID_foo.assertion.1_1] assertion failed: x",
    property := "foo.assertion.1",
    source_location := { column := none, file := none, function := none, line := none },
    status := CheckStatus.Success, reach := none, trace := none }

/-- Witness for C8 at a concrete batch. -/
theorem C8_witness :
    remove_check_ids_from_description (remove_check_ids_from_description [c8prop])
      = remove_check_ids_from_description [c8prop] :=
  C8_strip_idempotent [c8prop] (by decide)

/-- Counterexample to C8 as stated: with a newline separating two
check-id tokens, stripping twice removes the second token that one strip
retains, so stripping is not idempotent on all descriptions. -/
theorem C8_counterexample :
    ¬ (stripCheckId (stripCheckId "[KANI_CHECK_ID_a_1] x\n[KANI_CHECK_ID_b_2] y".data)
        = stripCheckId "[KANI_CHECK_ID_a_1] x\n[KANI_CHECK_ID_b_2] y".data) := by
  decide

/-! ### C10: a single (greedy, leftmost) replacement per description -/

theorem takeWhile_digits_append_newline (w : List Char) :
    ∀ r : List Char, (r ++ '\n' :: w).takeWhile Char.isDigit = r.takeWhile Char.isDigit := by
  intro r
  induction r with
  | nil =>
    simp only [List.nil_append, List.takeWhile_cons, List.takeWhile_nil]
    rw [show Char.isDigit '\n' = false from rfl]
    rfl
  | cons d r2 ih =>
    simp only [List.cons_append, List.takeWhile_cons]
    cases hd : Char.isDigit d with
    | false => rfl
    | true => rw [ih]

theorem take2_dropWhile_append_newline (w : List Char) :
    ∀ r : List Char,
      (((r ++ '\n' :: w).dropWhile Char.isDigit).take 2 = ([']', ' '] : List Char))
        ↔ ((r.dropWhile Char.isDigit).take 2 = ([']', ' '] : List Char)) := by
  intro r
  induction r with
  | nil =>
    simp only [List.nil_append, List.dropWhile_cons, List.dropWhile_nil]
    rw [show Char.isDigit '\n' = false from rfl]
    simp only [Bool.false_eq_true, if_neg (fun hx : False => hx)]
    constructor
    · intro h
      exfalso
      cases w with
      | nil => exact absurd h (by decide)
      | cons w0 w2 =>
        rw [show (('\n' :: w0 :: w2).take 2) = ['\n', w0] from rfl] at h
        injection h with h1 h2
        exact absurd h1 (by decide)
    · intro h
      exact absurd h (by decide)
  | cons d r2 ih =>
    simp only [List.cons_append, List.dropWhile_cons]
    cases hd : Char.isDigit d with
    | true => exact ih
    | false =>
      simp only [Bool.false_eq_true, if_neg (fun hx : False => hx)]
      cases r2 with
      | nil =>
        simp only [List.nil_append]
        constructor
        · intro h
          exfalso
          rw [show ((d :: ('\n' :: w)).take 2) = [d, '\n'] from rfl] at h
          injection h with h1 h2
          injection h2 with h3 h4
          exact absurd h3 (by decide)
        · intro h
          exfalso
          have hlen := congrArg List.length h
          simp at hlen
      | cons e r3 => exact Iff.rfl

theorem tailMatchB_append_newline (w : List Char) (v : List Char) :
    tailMatchB (v ++ '\n' :: w) = tailMatchB v := by
  cases v with
  | nil =>
    rw [List.nil_append, tailMatchB_ne_underscore (by decide)]
    rfl
  | cons c r =>
    by_cases hc : c = '_'
    · subst hc
      rw [List.cons_append, tailMatchB_cons_underscore, tailMatchB_cons_underscore]
      exact decide_eq_decide.mpr (take2_dropWhile_append_newline w r)
    · rw [List.cons_append, tailMatchB_ne_underscore hc, tailMatchB_ne_underscore hc]

theorem tailMatchLen_append_newline {v : List Char} (w : List Char)
    (h : tailMatchB v = true) :
    tailMatchLen (v ++ '\n' :: w) = tailMatchLen v := by
  cases v with
  | nil => exact absurd h (by decide)
  | cons c r =>
    by_cases hc : c = '_'
    · subst hc
      rw [List.cons_append, tailMatchLen_cons_underscore, tailMatchLen_cons_underscore]
      rw [takeWhile_digits_append_newline]
    · rw [tailMatchB_ne_underscore hc] at h
      exact absurd h (by simp)

theorem noNewline_false_of_mem {l : List Char} (h : '\n' ∈ l) :
    noNewline l = false := by
  cases hv : noNewline l with
  | false => rfl
  | true =>
    exfalso
    unfold noNewline at hv
    rw [List.all_eq_true] at hv
    have := hv '\n' h
    exact absurd this (by decide)

theorem greedyKB_append_newline {u : List Char} (w : List Char)
    (hnlu : noNewline u = true) :
    greedyKB (u ++ '\n' :: w) = greedyKB u := by
  have hpred : ∀ k, k ≤ u.length →
      (noNewline ((u ++ '\n' :: w).take k) && tailMatchB ((u ++ '\n' :: w).drop k))
        = (noNewline (u.take k) && tailMatchB (u.drop k)) := by
    intro k hk
    rw [List.take_append_of_le_length hk, List.drop_append_of_le_length hk]
    rw [tailMatchB_append_newline]
  have hbig : ∀ k, u.length < k →
      (noNewline ((u ++ '\n' :: w).take k) && tailMatchB ((u ++ '\n' :: w).drop k))
        = false := by
    intro k hk
    have hmem : '\n' ∈ (u ++ '\n' :: w).take k := by
      rw [List.take_append_eq_append_take]
      refine List.mem_append.mpr (Or.inr ?_)
      have harith : k - u.length = (k - u.length - 1) + 1 := by omega
      rw [harith]
      exact List.mem_cons_self _ _
    rw [noNewline_false_of_mem hmem, Bool.false_and]
  cases hg : greedyKB u with
  | some k =>
    obtain ⟨hkle, hnl2, htb, hmax⟩ := greedyKB_inv hg
    unfold greedyKB
    refine findMaxLe_eq_some_of ?_ ?_ ?_
    · rw [hpred k hkle, hnl2, htb]
      rfl
    · rw [List.length_append]
      omega
    · intro q hq1 hq2
      by_cases hqu : q ≤ u.length
      · rw [hpred q hqu]
        exact hmax q hq1 hqu
      · exact hbig q (by omega)
  | none =>
    have hall := findMaxLe_eq_none hg
    unfold greedyKB
    refine findMaxLe_eq_none_of (fun q hq => ?_)
    by_cases hqu : q ≤ u.length
    · rw [hpred q hqu]
      exact hall q hqu
    · exact hbig q (by omega)

theorem lit_isPrefixOf_append_newline {a b : List Char} (q : Nat) (hq : q ≤ a.length) :
    LIT_BRACKET.isPrefixOf ((a ++ '\n' :: b).drop q) = LIT_BRACKET.isPrefixOf (a.drop q) := by
  rw [List.drop_append_of_le_length hq]
  by_cases hlen : 15 ≤ (a.drop q).length
  · cases hp : LIT_BRACKET.isPrefixOf (a.drop q) with
    | true => exact isPrefixOf_append_right hp
    | false =>
      cases hp2 : LIT_BRACKET.isPrefixOf (a.drop q ++ '\n' :: b) with
      | false => rfl
      | true =>
        have hpre := isPrefixOf_of_append_left hp2 (by rw [LIT_BRACKET_length]; omega)
        rw [hpre] at hp
        exact absurd hp (by simp)
  · push_neg at hlen
    have hA : LIT_BRACKET.isPrefixOf (a.drop q) = false :=
      isPrefixOf_false_of_length (by rw [LIT_BRACKET_length]; omega)
    rw [hA]
    cases hp2 : LIT_BRACKET.isPrefixOf (a.drop q ++ '\n' :: b) with
    | false => rfl
    | true =>
      exfalso
      have hpre := List.isPrefixOf_iff_prefix.mp hp2
      rw [List.prefix_iff_eq_take, LIT_BRACKET_length] at hpre
      have hmem : '\n' ∈ LIT_BRACKET := by
        rw [hpre, List.take_append_eq_append_take]
        refine List.mem_append.mpr (Or.inr ?_)
        have harith : 15 - (a.drop q).length = (15 - (a.drop q).length - 1) + 1 := by omega
        rw [harith]
        exact List.mem_cons_self _ _
      exact absurd hmem (by decide)

theorem replMatchAt_append_newline {a b : List Char} (hnla : noNewline a = true)
    (q : Nat) (hq : q ≤ a.length) :
    replMatchAt (a ++ '\n' :: b) q = replMatchAt a q := by
  unfold replMatchAt
  rw [lit_isPrefixOf_append_newline q hq]
  cases hp : LIT_BRACKET.isPrefixOf (a.drop q) with
  | false => rfl
  | true =>
    simp only [if_pos trivial]
    have hq15 : q + 15 ≤ a.length := by
      have hle := isPrefixOf_length_le hp
      rw [LIT_BRACKET_length, List.length_drop] at hle
      omega
    have hdrop : (a ++ '\n' :: b).drop (q + 15) = a.drop (q + 15) ++ '\n' :: b :=
      List.drop_append_of_le_length hq15
    rw [hdrop, greedyKB_append_newline _ (noNewline_drop hnla _)]
    cases hg : greedyKB (a.drop (q + 15)) with
    | none => rfl
    | some k =>
      obtain ⟨hkle, _, htb, _⟩ := greedyKB_inv hg
      rw [drop_add] at htb
      rw [List.length_drop] at hkle
      have hdrop2 : (a ++ '\n' :: b).drop (q + 15 + k) = a.drop (q + 15 + k) ++ '\n' :: b :=
        List.drop_append_of_le_length (by omega)
      simp only
      rw [hdrop2, tailMatchLen_append_newline _ htb]

theorem replMatchAt_none_of_short {s : List Char} {i : Nat} (h : s.length < i + 15) :
    replMatchAt s i = none := by
  unfold replMatchAt
  rw [isPrefixOf_false_of_length (by rw [LIT_BRACKET_length, List.length_drop]; omega)]
  rfl

/-- C10 (amended): the strip operation performs at most one replacement
per description: a description with no match anywhere is returned
unchanged, and the single removed leftmost greedy match never crosses a
newline, so everything after a newline that follows a matching line is
retained verbatim.  (As the counterexample shows, the single greedy match
can span several token occurrences on one line, so a later occurrence on
the same line is not always retained.) -/
theorem C10_strip_single_replace :
    (∀ s : List Char, (∀ i, replMatchAt s i = none) → stripCheckId s = s)
    ∧ (∀ a b : List Char, noNewline a = true →
        (∃ i n, replMatchAt a i = some n) →
        stripCheckId (a ++ '\n' :: b) = stripCheckId a ++ '\n' :: b) := by
  constructor
  · intro s h
    exact stripCheckId_of_no_match (replFindStart_eq_none_of h)
  · rintro a b hnla ⟨i, n, hmat⟩
    have hi15 : i + 15 ≤ a.length := (replMatchAt_facts hmat).choose_spec.1
    cases hstart : replFindStart a with
    | none =>
      exfalso
      unfold replFindStart at hstart
      have hfalse := findFrom_eq_none hstart i (Nat.zero_le _) (by omega)
      rw [hmat] at hfalse
      exact absurd hfalse (by simp)
    | some i0 =>
      obtain ⟨hisSome, hmin⟩ := replFindStart_spec hstart
      cases hmat0 : replMatchAt a i0 with
      | none =>
        rw [hmat0] at hisSome
        exact absurd hisSome (by simp)
      | some n0 =>
        obtain ⟨k0, hi015, _, _, _, _, hend0⟩ := replMatchAt_facts hmat0
        have hi0le : i0 ≤ a.length := by omega
        have hstart2 : replFindStart (a ++ '\n' :: b) = some i0 := by
          refine replFindStart_eq_some_of ?_ ?_ ?_
          · rw [replMatchAt_append_newline hnla i0 hi0le, hmat0]
            rfl
          · rw [List.length_append]
            omega
          · intro q hqi
            rw [replMatchAt_append_newline hnla q (by omega)]
            exact hmin q hqi
        have hmat2 : replMatchAt (a ++ '\n' :: b) i0 = some n0 := by
          rw [replMatchAt_append_newline hnla i0 hi0le, hmat0]
        rw [stripCheckId_of_match hstart2 hmat2, stripCheckId_of_match hstart hmat0]
        rw [List.take_append_of_le_length hi0le,
          List.drop_append_of_le_length hend0, List.append_assoc]

/-- Witness for C10 at concrete inputs: a token-free description is
unchanged, and a token after a newline survives the strip of the first
line. -/
theorem C10_witness :
    stripCheckId "no token here".data = "no token here".data
    ∧ stripCheckId ("[KANI_CHECK_ID_a_1] x".data ++ '\n' :: "[KANI_CHECK_ID_b_2] y".data)
      = stripCheckId "[KANI_CHECK_ID_a_1] x".data ++ '\n' :: "[KANI_CHECK_ID_b_2] y".data :=
  ⟨C10_strip_single_replace.1 "no token here".data (by
      intro i
      refine replMatchAt_none_of_short ?_
      have hlen : ("no token here".data).length = 13 := by decide
      omega),
   C10_strip_single_replace.2 "[KANI_CHECK_ID_a_1] x".data "[KANI_CHECK_ID_b_2] y".data
     (by decide) ⟨0, 20, by decide⟩⟩

/-- Counterexample to C10 as stated: with two tokens on one line the
single greedy leftmost match spans both, so the later occurrence (itself
a match of the pattern, at position 20) is removed rather than retained. -/
theorem C10_counterexample :
    stripCheckId "[KANI_CHECK_ID_a_1] [KANI_CHECK_ID_b_2] x".data = "x".data
    ∧ (replMatchAt "[KANI_CHECK_ID_a_1] [KANI_CHECK_ID_b_2] x".data 20).isSome = true
    ∧ containsSub (stripCheckId "[KANI_CHECK_ID_a_1] [KANI_CHECK_ID_b_2] x".data)
        "[KANI_CHECK_ID_b_2]".data = false := by
  refine ⟨by decide, by decide, by decide⟩

/-! ### C9: the failure digest -/

theorem concatAll_mem_split {m : String} :
    ∀ {msgs : List String}, m ∈ msgs → ∃ x y, concatAll msgs = x ++ (m ++ y) := by
  intro msgs
  induction msgs with
  | nil => intro h; simp at h
  | cons s rest ih =>
    intro h
    rcases List.mem_cons.mp h with rfl | h2
    · exact ⟨"", concatAll rest, by rw [String.empty_append]; rfl⟩
    · obtain ⟨x, y, hxy⟩ := ih h2
      refine ⟨s ++ x, y, ?_⟩
      show s ++ concatAll rest = s ++ x ++ (m ++ y)
      rw [hxy, String.append_assoc]

theorem format_result_inv {renderLoc : SourceLocation → String}
    {properties : List Property} {show_checks : Bool} {str : String}
    (h : format_result renderLoc properties show_checks = some str) :
    ∃ msgs, mapOpt (fun prop => build_failure_message prop.description prop.trace)
        (properties.filter (fun prop => decide (prop.status = CheckStatus.Failure)))
        = some msgs
      ∧ str = (if show_checks then "\nRESULTS:\n" ++ checkBlocks renderLoc properties
            else "")
          ++ (if show_checks then "\nSUMMARY:" else "\nVERIFICATION RESULT:")
          ++ ("\n ** " ++ toString (numberTestsFailed properties) ++ " of "
              ++ toString properties.length ++ " failed")
          ++ otherStatusStr (numberTestsUndetermined properties)
              (numberTestsUnreachable properties)
          ++ "\n"
          ++ concatAll msgs
          ++ ("\nVERIFICATION:- " ++ verification_result (numberTestsFailed properties)
              ++ "\n")
          ++ (if has_check_failures properties UNSUPPORTED_CONSTRUCT_DESC then
                unsupportedWarning else "")
          ++ (if has_check_failures properties UNWINDING_ASSERT_DESC then unwindingTip
              else "") := by
  unfold format_result at h
  simp only [Option.bind_eq_bind, Option.bind_eq_some] at h
  obtain ⟨msgs, hmsgs, hstr⟩ := h
  simp only [Option.pure_def, Option.some_inj] at hstr
  exact ⟨msgs, hmsgs, hstr.symm⟩

/-- C9 (amended): every digest entry opens with the check's description;
with a non-empty trace whose last step carries a complete location (file,
function AND line all present) the file/line/function line is appended;
if the last step's location is absent or any of file, function, line is
missing, the location line is omitted; and in the report every Failure
check contributes its digest entry. -/
theorem C9_failure_digest :
    (∀ (description : String) (trace : Option (List TraceItem)) (s : String),
      build_failure_message description trace = some s →
      ∃ rest, s = "Failed Checks: " ++ description ++ "\n" ++ rest)
    ∧ (∀ (description : String) (tr : List TraceItem) (lastStep : TraceItem)
        (loc : SourceLocation) (ff fn ln : String),
        tr.getLast? = some lastStep → lastStep.source_location = some loc →
        loc.file = some ff → loc.function = some fn → loc.line = some ln →
        build_failure_message description (some tr)
          = some ("Failed Checks: " ++ description ++ "\n File: \"" ++ ff
              ++ "\", line " ++ ln ++ ", in " ++ fn ++ "\n"))
    ∧ (∀ (description : String) (tr : List TraceItem) (lastStep : TraceItem),
        tr.getLast? = some lastStep →
        (lastStep.source_location = none
          ∨ ∃ loc, lastStep.source_location = some loc
              ∧ (loc.file = none ∨ loc.function = none ∨ loc.line = none)) →
        build_failure_message description (some tr)
          = some ("Failed Checks: " ++ description ++ "\n"))
    ∧ (∀ (renderLoc : SourceLocation → String) (props : List Property)
        (show_checks : Bool) (str : String) (p : Property),
        format_result renderLoc props show_checks = some str →
        p ∈ props → p.status = CheckStatus.Failure →
        ∃ m, build_failure_message p.description p.trace = some m
          ∧ strContains str m = true) := by
  refine ⟨?_, ?_, ?_, ?_⟩
  · intro description trace s h
    unfold build_failure_message at h
    cases trace with
    | none =>
      simp only [Option.some_inj] at h
      exact ⟨"", by rw [← h, String.append_empty]⟩
    | some tr =>
      dsimp only at h
      cases hgl : tr.getLast? with
      | none => rw [hgl] at h; exact absurd h (by simp)
      | some lastStep =>
        rw [hgl] at h
        dsimp only at h
        cases hloc : lastStep.source_location with
        | none =>
          rw [hloc] at h
          simp only [Option.some_inj] at h
          exact ⟨"", by rw [← h, String.append_empty]⟩
        | some loc =>
          rw [hloc] at h
          dsimp only at h
          cases hf : loc.file with
          | none =>
            rw [hf] at h
            simp only [Option.some_inj] at h
            exact ⟨"", by rw [← h, String.append_empty]⟩
          | some ff =>
            rw [hf] at h
            cases hfn : loc.function with
            | none =>
              rw [hfn] at h
              simp only [Option.some_inj] at h
              exact ⟨"", by rw [← h, String.append_empty]⟩
            | some fn =>
              rw [hfn] at h
              cases hln : loc.line with
              | none =>
                rw [hln] at h
                simp only [Option.some_inj] at h
                exact ⟨"", by rw [← h, String.append_empty]⟩
              | some ln =>
                rw [hln] at h
                simp only [Option.some_inj] at h
                refine ⟨" File: \"" ++ ff ++ "\", line " ++ ln ++ ", in " ++ fn ++ "\n",
                  ?_⟩
                rw [← h]
                rw [show ("\n File: \"" : String) = "\n" ++ " File: \"" from rfl]
                simp only [String.append_assoc]
  · intro description tr lastStep loc ff fn ln hgl hloc hf hfn hln
    unfold build_failure_message
    dsimp only
    rw [hgl]
    dsimp only
    rw [hloc]
    dsimp only
    rw [hf, hfn, hln]
  · intro description tr lastStep hgl hmiss
    unfold build_failure_message
    dsimp only
    rw [hgl]
    dsimp only
    rcases hmiss with hnone | ⟨loc, hloc, hm⟩
    · rw [hnone]
    · rw [hloc]
      dsimp only
      rcases hm with hm | hm | hm
      · rw [hm]
      · cases hf : loc.file with
        | none => rfl
        | some ff => rw [hm]
      · cases hf : loc.file with
        | none => rfl
        | some ff =>
          cases hfn : loc.function with
          | none => rfl
          | some fn => rw [hm]
  · intro renderLoc props show_checks str p h hp hfail
    obtain ⟨msgs, hmsgs, hstr⟩ := format_result_inv h
    have hmem : p ∈ props.filter (fun prop => decide (prop.status = CheckStatus.Failure)) :=
      List.mem_filter.mpr ⟨hp, by rw [hfail]; rfl⟩
    obtain ⟨m, hmmem, hmbuild⟩ := mapOpt_mem hmsgs hmem
    obtain ⟨x, y, hxy⟩ := concatAll_mem_split hmmem
    refine ⟨m, hmbuild, ?_⟩
    rw [hstr, hxy]
    have hshape : (if show_checks then "\nRESULTS:\n" ++ checkBlocks renderLoc props
            else "")
          ++ (if show_checks then "\nSUMMARY:" else "\nVERIFICATION RESULT:")
          ++ ("\n ** " ++ toString (numberTestsFailed props) ++ " of "
              ++ toString props.length ++ " failed")
          ++ otherStatusStr (numberTestsUndetermined props) (numberTestsUnreachable props)
          ++ "\n"
          ++ (x ++ (m ++ y))
          ++ ("\nVERIFICATION:- " ++ verification_result (numberTestsFailed props)
              ++ "\n")
          ++ (if has_check_failures props UNSUPPORTED_CONSTRUCT_DESC then
                unsupportedWarning else "")
          ++ (if has_check_failures props UNWINDING_ASSERT_DESC then unwindingTip
              else "")
        = ((if show_checks then "\nRESULTS:\n" ++ checkBlocks renderLoc props else "")
          ++ (if show_checks then "\nSUMMARY:" else "\nVERIFICATION RESULT:")
          ++ ("\n ** " ++ toString (numberTestsFailed props) ++ " of "
              ++ toString props.length ++ " failed")
          ++ otherStatusStr (numberTestsUndetermined props) (numberTestsUnreachable props)
          ++ "\n" ++ x)
          ++ m
          ++ (y ++ ("\nVERIFICATION:- " ++ verification_result (numberTestsFailed props)
              ++ "\n")
          ++ (if has_check_failures props UNSUPPORTED_CONSTRUCT_DESC then
                unsupportedWarning else "")
          ++ (if has_check_failures props UNWINDING_ASSERT_DESC then unwindingTip
              else "")) := by
      simp only [String.append_assoc]
    rw [hshape]
    exact strContains_of_append

/-- Fixture for the C9 witness: a complete source location. -/
def c9fullLoc : SourceLocation :=
  { column := none, file := some "f.rs", function := some "main", line := some "3" }

/-- Fixture for the C9 witness: a trace step with a complete location. -/
def c9fullStep : TraceItem :=
  { thread := 0, step_type := "assignment", hidden := false,
    source_location := some c9fullLoc }

/-- Witness for C9 at a concrete input: a complete last-step location is
rendered as the file/line/function line. -/
theorem C9_witness :
    build_failure_message "d" (some [c9fullStep])
      = some ("Failed Checks: " ++ "d" ++ "\n File: \"" ++ "f.rs"
          ++ "\", line " ++ "3" ++ ", in " ++ "main" ++ "\n") :=
  C9_failure_digest.2.1 "d" [c9fullStep] c9fullStep c9fullLoc
    "f.rs" "main" "3" (by decide) (by decide) (by decide) (by decide) (by decide)

/-- Fixture for the C9 counterexample: a location with file and line
present but no function. -/
def c9noFnLoc : SourceLocation :=
  { column := none, file := some "f.rs", function := none, line := some "3" }

/-- Counterexample to C9 as stated: the last trace step's location has
both its file and its line, yet the location line is omitted, because the
code also requires the function name. -/
theorem C9_counterexample :
    build_failure_message "d"
        (some [({ thread := 0, step_type := "s", hidden := false, source_location := some c9noFnLoc } : TraceItem)])
      = some "Failed Checks: d\n"
    ∧ c9noFnLoc.file ≠ none ∧ c9noFnLoc.line ≠ none := by
  refine ⟨by decide, by decide, by decide⟩

end Cbmc
